import Mathlib

/-!
Verification of the streaming HTTP/1.x request parser of the
`another-c-library` repository (`stla_http.c`, with `stla_conv.c` for the
scalar conversions).  The parser state machine, request-line/header parsing,
chunk handling and the parser-pool counter are shallowly embedded below,
transcribed from the C source.  The asynchronous byte reader
(`stla_async_buffer`) is not part of the provided sources; it is modelled
from the specification (see the `Modelled from the spec:` doc comments).

Bytes are modelled as `Char` values (the C code works on `char` data; all
relevant comparisons are on ASCII), byte strings as `List Char`.  C strings
may contain embedded NUL bytes, which the embedding treats exactly as the C
string functions do (scans stop at the first NUL).
-/

set_option maxHeartbeats 4000000
set_option maxRecDepth 100000

namespace StlaHttp


/-- The NUL byte, used to model C string termination. -/
def chNul : Char := Char.ofNat 0

/-- Transcribed from `stla_http.c`: `white_space(c)` is true for space and tab. -/
def white_space (c : Char) : Bool := c = ' ' || c = '\t'

/-- ASCII lower-casing of a single byte, as done by C `tolower` for the
comparisons in `strncasecmp`/`strcasecmp` (only A-Z are changed). -/
def lowc (c : Char) : Char :=
  if 'A' ≤ c ∧ c ≤ 'Z' then Char.ofNat (c.toNat + 32) else c

/-- C `isxdigit` on ASCII bytes: 0-9, a-f, A-F. -/
def isxdigitC (c : Char) : Bool :=
  ('0' ≤ c && c ≤ '9') || ('a' ≤ c && c ≤ 'f') || ('A' ≤ c && c ≤ 'F')

/-- C `isdigit` on ASCII bytes. -/
def isdigitC (c : Char) : Bool := '0' ≤ c && c ≤ '9'

/-- C `isspace` on ASCII bytes (space, \t, \n, \v, \f, \r), as skipped by
`sscanf` numeric conversions. -/
def isspaceC (c : Char) : Bool :=
  c = ' ' || c = '\t' || c = '\n' || c = '\r' || c = Char.ofNat 11 || c = Char.ofNat 12

/-- Value of a string of decimal digits. -/
def decVal (ds : List Char) : Nat :=
  ds.foldl (fun a c => a * 10 + (c.toNat - 48)) 0

/-- Earliest index at which `pat` occurs as a contiguous sub-list of the
haystack; models C `memmem` (which returns the first occurrence). -/
def findSub (pat : List Char) : List Char → Option Nat
  | [] => if pat.isPrefixOf ([] : List Char) then some 0 else none
  | c :: t =>
    if pat.isPrefixOf (c :: t) then some 0
    else (findSub pat t).map (· + 1)

/-- The CRLF delimiter as a byte list. -/
def crlfL : List Char := ['\r', '\n']

/-- The double-CRLF delimiter as a byte list. -/
def crlf2L : List Char := ['\r', '\n', '\r', '\n']

/-- Fueled worker for `splitCrlfLines`; each round consumes at least two
bytes (or ends the scan), so fuel `s.length` always suffices. -/
def splitCrlfLinesF : Nat → List Char → List (List Char)
  | 0, _ => []
  | fuel + 1, s =>
    if s.isEmpty then []
    else
      match findSub crlfL s with
      | some i => s.take i :: splitCrlfLinesF fuel (s.drop (i + 2))
      | none => [s]

/-- Lines of the header block: models the fill loop of
`parse_request_and_headers` (`while (p < end_headers) { ep = memmem(p, ..,
"\r\n", 2) or end; strndup(p, ep - p); p = ep + 2; }`). -/
def splitCrlfLines (s : List Char) : List (List Char) :=
  splitCrlfLinesF s.length s


/-! ## C-string helpers for the request-line walk

`parse_request_and_headers` copies the request line with
`stla_pool_strndup` and then walks it with raw `char *` arithmetic,
including a `*p++ = 0` store that can step one past the copied token when
the request line contains no whitespace after the method.  The bytes that
follow the copy in pool memory are indeterminate in C; the embedding makes
them an explicit parameter `stray` (a NUL-terminated garbage string), and
treats all memory past the modelled region as NUL bytes. -/

/-- Read one byte of the modelled buffer; indices past the end read as NUL. -/
def chAt (b : List Char) (i : Nat) : Char := b.getD i chNul

/-- Store one byte: `b` with index `i` replaced (out-of-range stores are
dropped, matching the NUL-padding convention of `chAt`). -/
def lset (b : List Char) (i : Nat) (c : Char) : List Char := b.set i c

/-- Fueled worker for `skipWs`.  The loop condition fails at any index past
the buffer (those bytes read as NUL), so fuel `b.length + 1` always
suffices. -/
def skipWsF (b : List Char) : Nat → Nat → Nat
  | 0, i => i
  | fuel + 1, i => if white_space (chAt b i) then skipWsF b fuel (i + 1) else i

/-- `for (; white_space(*p); p++)`. -/
def skipWs (b : List Char) (i : Nat) : Nat := skipWsF b (b.length + 1 - i) i

/-- Fueled worker for `skipTok`. -/
def skipTokF (b : List Char) : Nat → Nat → Nat
  | 0, i => i
  | fuel + 1, i =>
    if ¬ chAt b i = chNul ∧ ¬ white_space (chAt b i) then skipTokF b fuel (i + 1) else i

/-- `for (; *p && !white_space(*p); p++)`. -/
def skipTok (b : List Char) (i : Nat) : Nat := skipTokF b (b.length + 1 - i) i

/-- `for (; p > uri && white_space(*p); p--)`. -/
def backScan (b : List Char) (u : Nat) : Nat → Nat
  | 0 => 0
  | p + 1 => if u < p + 1 ∧ white_space (chAt b (p + 1)) then backScan b u p else p + 1

/-- The C string stored at index `i` of the buffer (bytes up to the first
NUL). -/
def cstr (b : List Char) (i : Nat) : List Char :=
  (b.drop i).takeWhile (fun c => ¬ c = chNul)

/-- Index of the last occurrence of `c` within the C string at index `u`;
models `strrchr` on the string starting at `u`. -/
def strrchrIdx (b : List Char) (u : Nat) (c : Char) : Option Nat :=
  let s := cstr b u
  (List.range s.length).foldl
    (fun acc j => if s.getD j chNul = c then some (u + j) else acc) none

/-- The request-line walk of `parse_request_and_headers`, transcribed from
`stla_http.c`.  `reqLine` is the `stla_pool_strndup` copy of the request
line; `stray` models the indeterminate pool bytes that follow the copy (the
walk reads past the terminating NUL when the request line has no whitespace
after the method); `prevProtocol` is the previous value of
`parser->protocol`, which the C code leaves untouched when no
space/tab-delimited protocol token is found (for a freshly malloc'ed parser
that value is uninitialized, for a recycled parser it is the previous
request's pointer).  Returns the final `method`, `uri` and `protocol`
fields. -/
def parseReqLine (stray : List Char) (reqLine : List Char)
    (prevProtocol : Option (List Char)) :
    List Char × List Char × Option (List Char) :=
  let b0 := reqLine ++ [chNul] ++ stray ++ [chNul]
  -- find beginning of method
  let p0 := skipWs b0 0
  let m := p0
  -- find end of method
  let p1 := skipTok b0 p0
  let b1 := lset b0 p1 chNul
  let p2 := p1 + 1
  -- find beginning of uri
  let u := skipWs b1 p2
  -- find end of uri: rightmost space/tab of the rest of the line
  let endSpace := strrchrIdx b1 u ' '
  let endTab := strrchrIdx b1 u '\t'
  let endPos :=
    match endSpace, endTab with
    | none, et => et
    | some e, some t => if e < t then some t else some e
    | some e, none => some e
  match endPos with
  | none => (cstr b1 m, cstr b1 u, prevProtocol)
  | some e =>
    let p3 := backScan b1 u e
    let p4 := if ¬ white_space (chAt b1 p3) then p3 + 1 else p3
    let b2 := lset b1 p4 chNul
    let p5 := skipWs b2 (p4 + 1)
    (cstr b2 m, cstr b2 u, some (cstr b2 p5))

/-- Transcribed from `stla_http.c` `parse_request_and_headers`: split the
headers view at the first CRLF into request line and header block, store the
header lines, then walk the request line.  Returns the new `method`, `uri`,
`protocol` and `headers` fields together with the C return value
`(parser->method && parser->uri && parser->protocol)`.  When the view
contains no CRLF the header fields are left untouched (the C code only
assigns `parser->headers`/`num_headers` in the CRLF branch).  `method` and
`uri` are always assigned (they are pointers into the copied line, hence
never null). -/
def parse_request_and_headers (stray : List Char)
    (prevProtocol : Option (List Char)) (prevHeaders : List (List Char))
    (data : List Char) :
    (List Char × List Char × Option (List Char)) × List (List Char) × Bool :=
  match findSub crlfL data with
  | some i =>
    let reqLine := data.take i
    let hdrRegion := data.drop (i + 2)
    let hdrs := splitCrlfLines hdrRegion
    let r := parseReqLine stray reqLine prevProtocol
    (r, hdrs, (some r.1).isSome && (some r.2.1).isSome && r.2.2.isSome)
  | none =>
    let r := parseReqLine stray data prevProtocol
    (r, prevHeaders, (some r.1).isSome && (some r.2.1).isSome && r.2.2.isSome)

/-! ## Header parameter lookup and scalar conversion -/

/-- Transcribed from `stla_http.c` `get_header_param`, for one stored header
line: a case-insensitive compare of the first `field.length` bytes
(`strncasecmp`), then skip spaces, require `:`, advance, skip spaces, and
fail if the remainder starts at the terminating NUL.  The stored line is
first truncated at its first embedded NUL byte, which is where the C string
functions stop. -/
def headerMatch (field : List Char) (line : List Char) : Option (List Char) :=
  let hd := line.takeWhile (fun c => ¬ c = chNul)
  if (hd.take field.length).map lowc = field.map lowc ∧ field.length ≤ hd.length then
    let r1 := (hd.drop field.length).dropWhile (fun c => c = ' ')
    match r1 with
    | ':' :: r2 =>
      let r3 := r2.dropWhile (fun c => c = ' ')
      if r3.isEmpty then none else some r3
    | _ => none
  else none

/-- Transcribed from `stla_http.c` `get_header_param`: scan the stored
header lines in order and return the first match. -/
def get_header_param (hdrs : List (List Char)) (field : List Char) :
    Option (List Char) :=
  match hdrs with
  | [] => none
  | h :: t =>
    match headerMatch field h with
    | some v => some v
    | none => get_header_param t field

/-- The optional sign of a `%llu`/`%zu` conversion: strip one leading `-`
or `+`, reporting whether the value must be negated. -/
def stripSign (t : List Char) : Bool × List Char :=
  match t with
  | [] => (false, [])
  | c :: r =>
    if c = '-' then (true, r)
    else if c = '+' then (false, r)
    else (false, c :: r)

/-- Model of `sscanf(value, "%llu", &res)` (and of `%zu`, both 64-bit
unsigned here): skip C whitespace, then match an *optionally signed*
non-empty run of decimal digits (C11 7.21.6.2), converted with `strtoull`
semantics — a leading `-` negates the value in the unsigned result type,
i.e. wraps it modulo 2^64; fails (returns zero items) when no digit follows
the optional sign.  Out-of-range magnitudes are left unmodelled
(out-of-range input to `sscanf` is undefined behavior in C); the value is
reduced mod 2^64. -/
def sscanf_u64 (s : List Char) : Option Nat :=
  let t := s.dropWhile isspaceC
  let sg := stripSign t
  let ds := sg.2.takeWhile isdigitC
  if ds.isEmpty then none
  else if sg.1 then some ((2 ^ 64 - decVal ds % 2 ^ 64) % 2 ^ 64)
  else some (decVal ds % 2 ^ 64)

/-- Transcribed from `stla_conv.c` `stla_uint64_t`: NULL reads as the
default, and a failed `sscanf` leaves `res = 0` and returns the default. -/
def stla_uint64_t (value : Option (List Char)) (default_value : Nat) : Nat :=
  match value with
  | none => default_value
  | some v =>
    match sscanf_u64 v with
    | some res => res
    | none => default_value

/-- Transcribed from `stla_http.c` `on_data`, chunk-size section: collect at
most 63 leading hex digits of the view into `buf`, then parse `buf` with
`sscanf(buf, "%zu", &chunk_size)` — a *decimal* conversion.  `none` means
the `sscanf` matched no item and the parser reports an error. -/
def chunk_size_of_view (data : List Char) : Option Nat :=
  sscanf_u64 ((data.take 63).takeWhile isxdigitC)

/-- `strcasecmp(encoding, "chunked") == 0`. -/
def isChunkedTE (e : List Char) : Bool :=
  (e.takeWhile (fun c => ¬ c = chNul)).map lowc = ("chunked".toList.map lowc)

/-! ## The asynchronous byte reader and the parser state machine

The `stla_async_buffer` implementation is not among the provided sources;
its contract is modelled from the specification (§4.1 AsyncByteReader): the
reader holds the unread bytes and at most one outstanding pull request, and
`advance_bytes` / `advance_to_string` either deliver a view synchronously
(when satisfiable) or leave the pull outstanding.  One correction to the
spec's wording is forced by the source of `on_data` (which is authoritative
here): the spec text says a delimiter-terminated view includes the delimiter
bytes, but `on_data` detects the empty trailer line with
`data_length > 0`/`== 0`, the chunked scenarios S5/S6 of the spec complete,
and the spec's own transition table says the empty footer line finalizes the
request — all of which require `advance_to_string` to deliver the bytes
*before* the delimiter and consume the delimiter.  The reader is therefore
modelled with delimiter-excluded views. -/

/-- Modelled from the spec: the pending pull request of the async byte
reader — "need `n` bytes" (`advance_bytes`) or "need up to the delimiter"
(`advance_to_string`). -/
inductive Pull where
  | bytes (n : Nat)
  | untilStr (d : List Char)
deriving DecidableEq, Repr

/-- The four user callbacks of the parser group, recorded as events in the
order the C code would invoke them. -/
inductive Ev where
  | onHeaders
  | onBodyChunk (chunk : List Char)
  | onRequestEnd (body : Option (List Char)) (len : Nat)
  | onParsingError
deriving DecidableEq, Repr

/-- Environment of one parser group: whether an `on_body_chunk` handler was
registered (the other three handlers are mandatory, `stla_http_group_init`
aborts otherwise), and the indeterminate pool bytes read by the request-line
walk when it runs past the copied line. -/
structure Env where
  hasOnBodyChunk : Bool
  stray : List Char

/- State bits, transcribed from `stla_http.c`. -/

/-- `http_state_reading_headers = 1 << 1`. -/
def stRH : Nat := 2

/-- `http_state_reading_whole_body = 1 << 2`. -/
def stWB : Nat := 4

/-- `http_state_reading_chunk_size = 1 << 3`. -/
def stCS : Nat := 8

/-- `http_state_reading_chunk_data = 1 << 4`. -/
def stCD : Nat := 16

/-- `http_state_reading_footers = 1 << 5`. -/
def stRF : Nat := 32

/-- `http_state_read_complete = 1 << 6`. -/
def stRC : Nat := 64

/-- One parser (`struct stla_http_s`) together with its async byte reader.
`method`/`uri`/`protocol` are `none` when the C pointer would be null;
`unread`/`pending` are the modelled async buffer.  The region-pool contents
of a recycled parser are dangling in C; the model keeps the last written
values (only their non-nullness is ever relied on by the theorems below). -/
structure S where
  state : Nat
  method : Option (List Char)
  uri : Option (List Char)
  protocol : Option (List Char)
  headers : List (List Char)
  post_data : Option (List Char)
  post_size : Nat
  chunk_body_cache : Option (List Char)
  unread : List Char
  pending : Option Pull
deriving DecidableEq, Repr

/-- Modelled from the spec: try to satisfy a pull request against the
unread bytes.  `advance_bytes n` delivers exactly `n` bytes when available;
`advance_to_string d` delivers the bytes before the earliest occurrence of
`d` and consumes the delimiter (see the note above on the delimiter-excluded
views).  Returns the view and the remaining unread bytes, or `none` when the
pull stays outstanding. -/
def tryPull (unread : List Char) : Pull → Option (List Char × List Char)
  | .bytes n =>
    if n ≤ unread.length then some (unread.take n, unread.drop n) else none
  | .untilStr d =>
    match findSub d unread with
    | some i => some (unread.take i, unread.drop (i + d.length))
    | none => none

/-- One section of the `while (1)` loop of `on_data`, transcribed from
`stla_http.c`.  The C loop body is a sequence of `if (p->state & ...)`
sections that fall through to each other; since exactly one of the
non-terminal state bits is set at any time, falling through to the next
section is the same as re-entering the loop from the top, which is how the
driver `on_data` below iterates this function.  `inl` means the C code
returned (terminal callback fired, or the next pull is outstanding); `inr`
carries the freshly delivered view for the next round. -/
def on_data_step (env : Env) (s : S) (view : List Char) :
    (S × List Ev) ⊕ (S × List Char × List Ev) :=
  if s.state &&& stRH ≠ 0 then
    -- First chunk of all requests.  Should include request and headers.
    let pr := parse_request_and_headers env.stray s.protocol s.headers view
    let s1 : S := { s with method := some pr.1.1, uri := some pr.1.2.1,
                           protocol := pr.1.2.2, headers := pr.2.1 }
    if pr.2.2 = false then
      Sum.inl ({ s1 with state := s1.state ^^^ (stRH ||| stRC) }, [Ev.onParsingError])
    else
      let s2 : S := { s1 with state := s1.state ^^^ stRH }
      let content_length :=
        stla_uint64_t (get_header_param s2.headers "Content-Length".toList) 0
      let encoding := get_header_param s2.headers "Transfer-Encoding".toList
      if content_length ≠ 0 then
        -- We know the length of the body.
        let s3 : S := { s2 with state := s2.state ||| stWB }
        match tryPull s3.unread (Pull.bytes content_length) with
        | none =>
          Sum.inl ({ s3 with pending := some (Pull.bytes content_length) },
            [Ev.onHeaders])
        | some (v, rest) =>
          Sum.inr ({ s3 with unread := rest, pending := none }, v, [Ev.onHeaders])
      else if (encoding.map isChunkedTE).getD false then
        -- We need to start reading chunked encoding.
        let s3 : S := { s2 with state := s2.state ||| stCS }
        match tryPull s3.unread (Pull.untilStr crlfL) with
        | none =>
          Sum.inl ({ s3 with pending := some (Pull.untilStr crlfL) }, [Ev.onHeaders])
        | some (v, rest) =>
          Sum.inr ({ s3 with unread := rest, pending := none }, v, [Ev.onHeaders])
      else
        -- No body.  We are done.
        Sum.inl ({ s2 with state := s2.state ||| stRC },
          [Ev.onHeaders, Ev.onRequestEnd none 0])
  else if s.state &&& stWB ≠ 0 then
    -- Body read finished.  We are done.
    Sum.inl ({ s with post_data := some view, post_size := view.length,
                      state := s.state ^^^ (stWB ||| stRC) },
      [Ev.onRequestEnd (some view) view.length])
  else if s.state &&& stCS ≠ 0 then
    -- We should have the length of the next chunk.
    match chunk_size_of_view view with
    | none =>
      Sum.inl ({ s with state := s.state ^^^ (stCS ||| stRC) }, [Ev.onParsingError])
    | some chunk_size =>
      if 0 < chunk_size then
        -- More data coming; read the chunk plus its trailing CRLF.
        let s2 : S := { s with state := s.state ^^^ (stCS ||| stCD) }
        match tryPull s2.unread (Pull.bytes (chunk_size + 2)) with
        | none =>
          Sum.inl ({ s2 with pending := some (Pull.bytes (chunk_size + 2)) }, [])
        | some (v, rest) =>
          Sum.inr ({ s2 with unread := rest, pending := none }, v, [])
      else
        -- End of body.  Need to get any footers if sent.
        let s2 : S := { s with state := s.state ^^^ (stCS ||| stRF) }
        match tryPull s2.unread (Pull.untilStr crlfL) with
        | none =>
          Sum.inl ({ s2 with pending := some (Pull.untilStr crlfL) }, [])
        | some (v, rest) =>
          Sum.inr ({ s2 with unread := rest, pending := none }, v, [])
  else if s.state &&& stCD ≠ 0 then
    -- Actual chunk of body: drop the trailing CRLF, deliver or buffer it.
    let chunk := view.take (view.length - 2)
    let cacheAfter := some ((s.chunk_body_cache.getD []) ++ chunk)
    let sc : S × List Ev :=
      if env.hasOnBodyChunk then (s, [Ev.onBodyChunk chunk])
      else ({ s with chunk_body_cache := cacheAfter }, [])
    let s2 : S := { sc.1 with state := sc.1.state ^^^ (stCD ||| stCS) }
    match tryPull s2.unread (Pull.untilStr crlfL) with
    | none =>
      Sum.inl ({ s2 with pending := some (Pull.untilStr crlfL) }, sc.2)
    | some (v, rest) =>
      Sum.inr ({ s2 with unread := rest, pending := none }, v, sc.2)
  else if s.state &&& stRF ≠ 0 then
    if 0 < view.length then
      -- Footer received; pull the next footer line.
      match tryPull s.unread (Pull.untilStr crlfL) with
      | none => Sum.inl ({ s with pending := some (Pull.untilStr crlfL) }, [])
      | some (v, rest) =>
        Sum.inr ({ s with unread := rest, pending := none }, v, [])
    else
      -- End of transmission.  Done.
      let pd :=
        match s.chunk_body_cache with
        | some buf => (some buf, buf.length)
        | none => (none, 0)
      Sum.inl ({ s with state := s.state ^^^ (stRF ||| stRC),
                        post_data := pd.1, post_size := pd.2 },
        [Ev.onRequestEnd pd.1 pd.2])
  else
    Sum.inl (s, [])

/-- The `while (1)` loop of `on_data`, iterating `on_data_step` on the
freshly delivered view.  Fuel bounds the iteration; every continued round
has consumed at least one unread byte, so `unread.length + 1` fuel is always
sufficient (`on_data_congr` below). -/
def on_data (env : Env) : Nat → S → List Char → S × List Ev
  | 0, s, _ => (s, [])
  | fuel + 1, s, view =>
    match on_data_step env s view with
    | Sum.inl r => r
    | Sum.inr (s', v', e) =>
      let r := on_data env fuel s' v'
      (r.1, e ++ r.2)

/-- Modelled from the spec: the delivery loop of
`stla_async_buffer_parse` — if the outstanding pull is now satisfiable,
deliver the view and run the continuation (`on_data`); the continuation
itself re-arms or finishes, and on return the new pull (if any) is not yet
satisfiable, so one delivery suffices. -/
def pump (env : Env) (s : S) : S × List Ev :=
  match s.pending with
  | none => (s, [])
  | some q =>
    match tryPull s.unread q with
    | none => (s, [])
    | some (v, rest) =>
      on_data env (s.unread.length + 1) { s with unread := rest, pending := none } v

/-- Transcribed from `stla_http.c` `stla_http_parse`: bytes fed to a parser
whose state includes `read_complete` only fire `on_parsing_error` and are
not forwarded to the async buffer; otherwise the bytes are appended and any
satisfied pulls are delivered. -/
def stla_http_parse (env : Env) (s : S) (data : List Char) : S × List Ev :=
  if s.state &&& stRC ≠ 0 then (s, [Ev.onParsingError])
  else pump env { s with unread := s.unread ++ data }

/-- Transcribed from `stla_http.c` `stla_http_init` (the per-parser part):
whether the parser is fresh (malloc'ed, fields indeterminate — the caller of
the model passes them in `base`) or popped from the free list (fields are
the previous request's), only the state is set to `reading_headers` and the
initial `advance_to_string("\r\n\r\n")` pull armed; the async buffer is
empty in both cases (fresh, or cleared by `stla_http_release`), so the pull
is outstanding. -/
def stla_http_init (base : S) : S :=
  { base with state := stRH, unread := [], pending := some (Pull.untilStr crlf2L) }

/-- Transcribed from `stla_http.c` `stla_http_release` (the per-parser
effects visible to a later reuse): the chunk cache is destroyed and nulled,
and the async buffer is cleared.  `method`/`uri`/`protocol`/`headers` are
not touched (their pool storage is cleared, leaving dangling non-null
pointers; the model keeps the last values). -/
def stla_http_release (p : S) : S :=
  { p with chunk_body_cache := none, unread := [], pending := none }

/-- Feed a list of byte chunks through successive `stla_http_parse` calls,
concatenating the recorded callback sequences. -/
def feedAll (env : Env) (s : S) : List (List Char) → S × List Ev
  | [] => (s, [])
  | c :: cs =>
    let r1 := stla_http_parse env s c
    let r2 := feedAll env r1.1 cs
    (r2.1, r1.2 ++ r2.2)

/-! ## Branch characterizations of `on_data_step`

One lemma per control path of the C `on_data` sections; all later proofs
case on these instead of re-unfolding the definition. -/

/-- Abbreviation for the result type of `parse_request_and_headers`. -/
def PRH : Type :=
  (List Char × List Char × Option (List Char)) × List (List Char) × Bool

/-- A pull request that, when satisfied, consumes at least one unread
byte. -/
def PullConsumes (q : Pull) : Prop :=
  ∀ u v rest : List Char, tryPull u q = some (v, rest) → rest.length + 1 ≤ u.length

/-! ## The parser group pool counter -/

/-- `static const int max_parser_group = 256`. -/
def max_parser_group : Nat := 256

/-- How `stla_http_init` obtained the parser it returns. -/
inductive AcquireKind where
  | fromFreeList
  | freshPoolMember
  | freshNonPool
deriving DecidableEq, Repr

/-- The pool bookkeeping of `struct stla_http_group_s`: the length of the
`parser_pool` free list and the `pool_size` counter, together with a ghost
count of pool-member parsers currently checked out (needed to state
reachability; it is not a C field). -/
structure Group where
  freeLen : Nat
  pool_size : Nat
  outstandingPool : Nat
deriving DecidableEq, Repr

/-- Transcribed from `stla_http.c` `stla_http_init` (the group part, under
the lock): pop from the free list when non-empty; otherwise
`pool_member = (g->pool_size + 1 < max_parser_group) ? 1 : 0` and the
counter is bumped only for pool members. -/
def stla_http_init_group_effect (g : Group) : Group × AcquireKind :=
  if g.freeLen ≠ 0 then
    ({ g with freeLen := g.freeLen - 1, outstandingPool := g.outstandingPool + 1 },
     AcquireKind.fromFreeList)
  else if g.pool_size + 1 < max_parser_group then
    ({ g with pool_size := g.pool_size + 1, outstandingPool := g.outstandingPool + 1 },
     AcquireKind.freshPoolMember)
  else (g, AcquireKind.freshNonPool)

/-- Transcribed from `stla_http.c` `stla_http_release` (the group part):
releasing a pool member pushes it onto the free list. -/
def stla_http_release_group_effect (g : Group) : Group :=
  { g with freeLen := g.freeLen + 1, outstandingPool := g.outstandingPool - 1 }

/-- Group states reachable from a fresh `stla_http_group_init` group by
acquiring parsers and releasing checked-out pool members. -/
inductive GroupReachable : Group → Prop where
  | init : GroupReachable ⟨0, 0, 0⟩
  | acquire {g : Group} : GroupReachable g →
      GroupReachable (stla_http_init_group_effect g).1
  | release {g : Group} : GroupReachable g → 0 < g.outstandingPool →
      GroupReachable (stla_http_release_group_effect g)

/-- `n` successive acquisitions from a group state. -/
def acquireN (g : Group) : Nat → Group
  | 0 => g
  | n + 1 => (stla_http_init_group_effect (acquireN g n)).1

/-! ## Concrete inputs used by the claim theorems and witnesses -/

/-- A group with no `on_body_chunk` handler and NUL pool-stray bytes. -/
def envNoChunkCb : Env := ⟨false, []⟩

/-- A group with an `on_body_chunk` handler registered. -/
def envChunkCb : Env := ⟨true, []⟩

/-- A freshly malloc'ed parser whose indeterminate fields happen to be
zero/null (the most favorable malloc outcome). -/
def baseZero : S := ⟨0, none, none, none, [], none, 0, none, [], none⟩

/-- A freshly malloc'ed parser whose indeterminate `protocol` field happens
to be a non-null garbage pointer. -/
def baseGarbage : S := ⟨0, none, none, some "X".toList, [], none, 0, none, [], none⟩

/-- `stla_http_init` on the zeroed fresh parser. -/
def freshParser : S := stla_http_init baseZero

/-- Scenario S1 of the spec. -/
def reqGET : List Char := "GET /hi HTTP/1.1\r\nHost: x\r\n\r\n".toList

/-- Scenario S5 of the spec. -/
def reqChunked : List Char :=
  "POST / HTTP/1.1\r\nTransfer-Encoding: chunked\r\n\r\n5\r\nhello\r\n6\r\n world\r\n0\r\n\r\n".toList

/-- Scenario S7 of the spec. -/
def reqBad : List Char := "????\r\n\r\n".toList

/-- A chunked request whose first chunk-size line is the single hex digit
`a` (denoting size 10 in HTTP chunked encoding). -/
def reqChunkHexA : List Char :=
  "POST / HTTP/1.1\r\nTransfer-Encoding: chunked\r\n\r\na\r\n".toList

/-- A parser recycled from the free list after a successful S1 request. -/
def recycledAfterGET : S :=
  stla_http_init (stla_http_release (stla_http_parse envNoChunkCb freshParser reqGET).1)

/-- A chunk-size line consisting of 64 hex digits `a`. -/
def hexRun64 : List Char := List.replicate 64 'a'

/-! ## Claim C5 -/

/-- The group state after 255 acquisitions from a fresh group. -/
def g255 : Group := acquireN ⟨0, 0, 0⟩ 255


/-! ## Claim C8: callback ordering -/

/-- Callback phases of one request: before `on_headers` has fired (`pre`),
between `on_headers` and the terminal callback (`mid`), and after the
terminal callback (`done`). -/
inductive Phase where
  | pre
  | mid
  | done
deriving DecidableEq, Repr

/-- The callback-ordering automaton of the spec: `on_headers` moves `pre` to
`mid`; `on_body_chunk` is allowed only in `mid` (hence between `on_headers`
and the terminal); `on_request_end` is allowed only in `mid` (hence after
`on_headers`) and moves to `done`; `on_parsing_error` may fire at any point
before the terminal and moves to `done`; nothing is allowed after `done`
(hence at most one terminal).  `none` marks a violation of the ordering. -/
def phStep : Phase → Ev → Option Phase
  | .pre, .onHeaders => some .mid
  | .pre, .onParsingError => some .done
  | .mid, .onBodyChunk _ => some .mid
  | .mid, .onRequestEnd _ _ => some .done
  | .mid, .onParsingError => some .done
  | _, _ => none

/-- Run the ordering automaton over a callback sequence. -/
def phRun : Phase → List Ev → Option Phase
  | p, [] => some p
  | p, e :: es =>
    match phStep p e with
    | none => none
    | some p' => phRun p' es

/-- Number of terminal callbacks (`on_request_end` or `on_parsing_error`) in
a callback sequence. -/
def countTerminals (evs : List Ev) : Nat :=
  (evs.filter fun e =>
    match e with
    | Ev.onRequestEnd _ _ => true
    | Ev.onParsingError => true
    | _ => false).length

/-- The state words the machine holds between `on_data` rounds: exactly one
of the six flags is set. -/
def goodState (st : Nat) : Bool :=
  st == stRH || st == stWB || st == stCS || st == stCD || st == stRF || st == stRC

/-- Phase summary of a parser state: `reading_headers` is before
`on_headers`, `read_complete` is after the terminal callback, every other
flag lies between them. -/
def phaseOf (st : Nat) : Phase :=
  if st = stRH then .pre else if st = stRC then .done else .mid

/-! ## Claim C7: general chunk accumulation -/

/-- The wire encoding of a chunked body tail: for each (size-line, payload)
pair the bytes `size ++ CRLF ++ payload ++ CRLF`, terminated by the
zero-size chunk line `"0" ++ CRLF` and the empty trailer line `CRLF`. -/
def chunkWire : List (List Char × List Char) → List Char
  | [] => '0' :: (crlfL ++ crlfL)
  | (sz, p) :: t => sz ++ crlfL ++ p ++ crlfL ++ chunkWire t

/-- The size line the machine is about to process (the bytes before the
first CRLF of the remaining wire). -/
def sizeLine : List (List Char × List Char) → List Char
  | [] => ['0']
  | (sz, _) :: _ => sz

/-- The bytes still unread while the machine processes `sizeLine`. -/
def wireRest : List (List Char × List Char) → List Char
  | [] => crlfL
  | (_, p) :: t => p ++ crlfL ++ chunkWire t

/-- The chunk cache after accumulating the payloads of the list (the
no-`on_body_chunk` fallback of `on_data`). -/
def accCache (c : Option (List Char)) : List (List Char × List Char) → Option (List Char)
  | [] => c
  | (_, p) :: t => accCache (some (c.getD [] ++ p)) t

/-- The body view and length `on_data` passes to `on_request_end` from a
chunk cache (`null, 0` when no chunk was ever buffered). -/
def cacheBody : Option (List Char) → Option (List Char) × Nat
  | some b => (some b, b.length)
  | none => (none, 0)

/-- A well-formed chunk list for the (decimal-converting, see C2) size
parse: every size line is a non-empty run of decimal digits that the
parser's size conversion reads as the payload's length, and every payload
is non-empty. -/
def GoodChunks (l : List (List Char × List Char)) : Prop :=
  ∀ pr ∈ l, pr.1 ≠ [] ∧ (∀ c ∈ pr.1, isdigitC c = true) ∧
    chunk_size_of_view pr.1 = some pr.2.length ∧ 0 < pr.2.length

instance goodChunksDec (l : List (List Char × List Char)) :
    Decidable (GoodChunks l) :=
  List.decidableBAll _ l

/-- The header part of the spec's scenario S5. -/
def reqChunkedHdr : List Char :=
  "POST / HTTP/1.1\r\nTransfer-Encoding: chunked\r\n\r\n".toList
theorem findSub_some_le {pat s : List Char} {i : Nat} (h : findSub pat s = some i) :
    i + pat.length ≤ s.length := by
  induction s generalizing i with
  | nil =>
    simp only [findSub] at h
    split at h
    · next hp =>
      cases h
      simpa using List.IsPrefix.length_le (List.isPrefixOf_iff_prefix.mp hp)
    · exact absurd h (by simp)
  | cons c t ih =>
    simp only [findSub] at h
    split at h
    · next hp =>
      cases h
      simpa using List.IsPrefix.length_le (List.isPrefixOf_iff_prefix.mp hp)
    · next hp =>
      rcases Option.map_eq_some'.mp h with ⟨j, hj, rfl⟩
      have := ih hj
      simp only [List.length_cons]
      omega

theorem prefix_of_append_short {pat s b : List Char} (h : pat <+: s ++ b)
    (hl : pat.length ≤ s.length) : pat <+: s :=
  List.prefix_of_prefix_length_le h (List.prefix_append s b) hl

theorem findSub_append {pat s b : List Char} {i : Nat} (h : findSub pat s = some i) :
    findSub pat (s ++ b) = some i := by
  induction s generalizing i with
  | nil =>
    simp only [findSub] at h
    split at h
    · next hp =>
      cases h
      have : pat = [] := by simpa using List.isPrefixOf_iff_prefix.mp hp
      subst this
      cases b <;> simp [findSub, List.isPrefixOf]
    · exact absurd h (by simp)
  | cons c t ih =>
    have hbound := findSub_some_le h
    simp only [findSub] at h
    split at h
    · next hp =>
      cases h
      have : pat.isPrefixOf (c :: t ++ b) := by
        exact List.isPrefixOf_iff_prefix.mpr
          ((List.isPrefixOf_iff_prefix.mp hp).trans (List.prefix_append _ _))
      simp only [List.cons_append, findSub]
      rw [if_pos (by simpa using this)]
    · next hp =>
      rcases Option.map_eq_some'.mp h with ⟨j, hj, rfl⟩
      have hplen : pat.length ≤ (c :: t).length := by
        simp only [List.length_cons] at hbound ⊢
        omega
      simp only [List.cons_append, findSub]
      rw [if_neg, show t.append b = t ++ b from rfl, ih hj]
      · rfl
      · intro hp2
        exact hp (List.isPrefixOf_iff_prefix.mpr
          (prefix_of_append_short (s := c :: t)
            (by simpa using List.isPrefixOf_iff_prefix.mp hp2) hplen))

theorem chAt_out {b : List Char} {i : Nat} (hge : b.length ≤ i) : chAt b i = chNul := by
  unfold chAt
  exact List.getD_eq_default _ _ hge

theorem chAt_white_space_lt {b : List Char} {i : Nat}
    (h : white_space (chAt b i) = true) : i < b.length := by
  by_contra hge
  rw [chAt_out (not_lt.mp hge)] at h
  exact absurd h (by decide)

theorem chAt_ne_nul_lt {b : List Char} {i : Nat} (h : ¬ chAt b i = chNul) :
    i < b.length := by
  by_contra hge
  exact h (chAt_out (not_lt.mp hge))

theorem on_data_succ_inl {env : Env} {fuel : Nat} {s : S} {view : List Char}
    {r : S × List Ev}
    (hstep : on_data_step env s view = Sum.inl r) :
    on_data env (fuel + 1) s view = r := by
  rw [on_data, hstep]

theorem on_data_succ_inr {env : Env} {fuel : Nat} {s : S} {view : List Char}
    {s' : S} {v' : List Char} {e : List Ev}
    (hstep : on_data_step env s view = Sum.inr (s', v', e)) :
    on_data env (fuel + 1) s view =
      ((on_data env fuel s' v').1, e ++ (on_data env fuel s' v').2) := by
  rw [on_data, hstep]

theorem parse_ok_protocol_isSome {stray : List Char} {pp : Option (List Char)}
    {ph : List (List Char)} {data : List Char}
    (h : (parse_request_and_headers stray pp ph data).2.2 = true) :
    (parse_request_and_headers stray pp ph data).1.2.2.isSome := by
  unfold parse_request_and_headers at h ⊢
  split at h <;> simpa using h

theorem on_data_step_RH_fail {env : Env} {s : S} {view : List Char} {pr : PRH}
    (h : s.state &&& stRH ≠ 0)
    (hpr : parse_request_and_headers env.stray s.protocol s.headers view = pr)
    (hfail : pr.2.2 = false) :
    on_data_step env s view =
      Sum.inl ({ s with method := some pr.1.1, uri := some pr.1.2.1,
                        protocol := pr.1.2.2, headers := pr.2.1,
                        state := s.state ^^^ (stRH ||| stRC) },
        [Ev.onParsingError]) := by
  simp only [on_data_step, if_pos h, hpr, hfail, if_true]

theorem on_data_step_RH_cl_pend {env : Env} {s : S} {view : List Char} {pr : PRH}
    {n : Nat}
    (h : s.state &&& stRH ≠ 0)
    (hpr : parse_request_and_headers env.stray s.protocol s.headers view = pr)
    (hok : pr.2.2 = true)
    (hn : stla_uint64_t (get_header_param pr.2.1 "Content-Length".toList) 0 = n)
    (hn0 : n ≠ 0)
    (htp : tryPull s.unread (Pull.bytes n) = none) :
    on_data_step env s view =
      Sum.inl ({ s with method := some pr.1.1, uri := some pr.1.2.1,
                        protocol := pr.1.2.2, headers := pr.2.1,
                        state := (s.state ^^^ stRH) ||| stWB,
                        pending := some (Pull.bytes n) },
        [Ev.onHeaders]) := by
  simp only [on_data_step, if_pos h, hpr, hok, hn, Bool.true_eq_false, if_false,
    ne_eq, hn0, not_false_eq_true, if_true, htp]

theorem on_data_step_RH_cl_sync {env : Env} {s : S} {view : List Char} {pr : PRH}
    {n : Nat} {v rest : List Char}
    (h : s.state &&& stRH ≠ 0)
    (hpr : parse_request_and_headers env.stray s.protocol s.headers view = pr)
    (hok : pr.2.2 = true)
    (hn : stla_uint64_t (get_header_param pr.2.1 "Content-Length".toList) 0 = n)
    (hn0 : n ≠ 0)
    (htp : tryPull s.unread (Pull.bytes n) = some (v, rest)) :
    on_data_step env s view =
      Sum.inr ({ s with method := some pr.1.1, uri := some pr.1.2.1,
                        protocol := pr.1.2.2, headers := pr.2.1,
                        state := (s.state ^^^ stRH) ||| stWB,
                        unread := rest, pending := none },
        v, [Ev.onHeaders]) := by
  simp only [on_data_step, if_pos h, hpr, hok, hn, Bool.true_eq_false, if_false,
    ne_eq, hn0, not_false_eq_true, if_true, htp]

theorem on_data_step_RH_chunked_pend {env : Env} {s : S} {view : List Char} {pr : PRH}
    (h : s.state &&& stRH ≠ 0)
    (hpr : parse_request_and_headers env.stray s.protocol s.headers view = pr)
    (hok : pr.2.2 = true)
    (hcl : stla_uint64_t (get_header_param pr.2.1 "Content-Length".toList) 0 = 0)
    (hch : ((get_header_param pr.2.1 "Transfer-Encoding".toList).map isChunkedTE).getD false
      = true)
    (htp : tryPull s.unread (Pull.untilStr crlfL) = none) :
    on_data_step env s view =
      Sum.inl ({ s with method := some pr.1.1, uri := some pr.1.2.1,
                        protocol := pr.1.2.2, headers := pr.2.1,
                        state := (s.state ^^^ stRH) ||| stCS,
                        pending := some (Pull.untilStr crlfL) },
        [Ev.onHeaders]) := by
  simp only [on_data_step, if_pos h, hpr, hok, hcl, Bool.true_eq_false, if_false,
    ne_eq, not_true_eq_false, hch, if_true, htp]

theorem on_data_step_RH_chunked_sync {env : Env} {s : S} {view : List Char} {pr : PRH}
    {v rest : List Char}
    (h : s.state &&& stRH ≠ 0)
    (hpr : parse_request_and_headers env.stray s.protocol s.headers view = pr)
    (hok : pr.2.2 = true)
    (hcl : stla_uint64_t (get_header_param pr.2.1 "Content-Length".toList) 0 = 0)
    (hch : ((get_header_param pr.2.1 "Transfer-Encoding".toList).map isChunkedTE).getD false
      = true)
    (htp : tryPull s.unread (Pull.untilStr crlfL) = some (v, rest)) :
    on_data_step env s view =
      Sum.inr ({ s with method := some pr.1.1, uri := some pr.1.2.1,
                        protocol := pr.1.2.2, headers := pr.2.1,
                        state := (s.state ^^^ stRH) ||| stCS,
                        unread := rest, pending := none },
        v, [Ev.onHeaders]) := by
  simp only [on_data_step, if_pos h, hpr, hok, hcl, Bool.true_eq_false, if_false,
    ne_eq, not_true_eq_false, hch, if_true, htp]

theorem on_data_step_RH_nobody {env : Env} {s : S} {view : List Char} {pr : PRH}
    (h : s.state &&& stRH ≠ 0)
    (hpr : parse_request_and_headers env.stray s.protocol s.headers view = pr)
    (hok : pr.2.2 = true)
    (hcl : stla_uint64_t (get_header_param pr.2.1 "Content-Length".toList) 0 = 0)
    (hch : ((get_header_param pr.2.1 "Transfer-Encoding".toList).map isChunkedTE).getD false
      = false) :
    on_data_step env s view =
      Sum.inl ({ s with method := some pr.1.1, uri := some pr.1.2.1,
                        protocol := pr.1.2.2, headers := pr.2.1,
                        state := (s.state ^^^ stRH) ||| stRC },
        [Ev.onHeaders, Ev.onRequestEnd none 0]) := by
  simp only [on_data_step, if_pos h, hpr, hok, hcl, Bool.true_eq_false,
    Bool.false_eq_true, if_false, ne_eq, not_true_eq_false, hch]

theorem on_data_step_WB {env : Env} {s : S} {view : List Char}
    (h1 : s.state &&& stRH = 0) (h2 : s.state &&& stWB ≠ 0) :
    on_data_step env s view =
      Sum.inl ({ s with post_data := some view, post_size := view.length,
                        state := s.state ^^^ (stWB ||| stRC) },
        [Ev.onRequestEnd (some view) view.length]) := by
  simp only [on_data_step, h1, ne_eq, not_true_eq_false, if_false,
    not_false_eq_true, if_pos h2]

theorem on_data_step_CS_err {env : Env} {s : S} {view : List Char}
    (h1 : s.state &&& stRH = 0) (h2 : s.state &&& stWB = 0)
    (h3 : s.state &&& stCS ≠ 0)
    (hcs : chunk_size_of_view view = none) :
    on_data_step env s view =
      Sum.inl ({ s with state := s.state ^^^ (stCS ||| stRC) }, [Ev.onParsingError]) := by
  simp only [on_data_step, h1, h2, ne_eq, not_true_eq_false, if_false,
    not_false_eq_true, if_pos h3, hcs]

theorem on_data_step_CS_pos_pend {env : Env} {s : S} {view : List Char} {n : Nat}
    (h1 : s.state &&& stRH = 0) (h2 : s.state &&& stWB = 0)
    (h3 : s.state &&& stCS ≠ 0)
    (hcs : chunk_size_of_view view = some n) (hn : 0 < n)
    (htp : tryPull s.unread (Pull.bytes (n + 2)) = none) :
    on_data_step env s view =
      Sum.inl ({ s with state := s.state ^^^ (stCS ||| stCD),
                        pending := some (Pull.bytes (n + 2)) }, []) := by
  simp only [on_data_step, h1, h2, ne_eq, not_true_eq_false, if_false,
    not_false_eq_true, if_pos h3, hcs, hn, if_true, htp]

theorem on_data_step_CS_pos_sync {env : Env} {s : S} {view : List Char} {n : Nat}
    {v rest : List Char}
    (h1 : s.state &&& stRH = 0) (h2 : s.state &&& stWB = 0)
    (h3 : s.state &&& stCS ≠ 0)
    (hcs : chunk_size_of_view view = some n) (hn : 0 < n)
    (htp : tryPull s.unread (Pull.bytes (n + 2)) = some (v, rest)) :
    on_data_step env s view =
      Sum.inr ({ s with state := s.state ^^^ (stCS ||| stCD),
                        unread := rest, pending := none }, v, []) := by
  simp only [on_data_step, h1, h2, ne_eq, not_true_eq_false, if_false,
    not_false_eq_true, if_pos h3, hcs, hn, if_true, htp]

theorem on_data_step_CS_zero_pend {env : Env} {s : S} {view : List Char} {n : Nat}
    (h1 : s.state &&& stRH = 0) (h2 : s.state &&& stWB = 0)
    (h3 : s.state &&& stCS ≠ 0)
    (hcs : chunk_size_of_view view = some n) (hn : ¬ 0 < n)
    (htp : tryPull s.unread (Pull.untilStr crlfL) = none) :
    on_data_step env s view =
      Sum.inl ({ s with state := s.state ^^^ (stCS ||| stRF),
                        pending := some (Pull.untilStr crlfL) }, []) := by
  simp only [on_data_step, h1, h2, ne_eq, not_true_eq_false, if_false,
    not_false_eq_true, if_pos h3, hcs, hn, htp]

theorem on_data_step_CS_zero_sync {env : Env} {s : S} {view : List Char} {n : Nat}
    {v rest : List Char}
    (h1 : s.state &&& stRH = 0) (h2 : s.state &&& stWB = 0)
    (h3 : s.state &&& stCS ≠ 0)
    (hcs : chunk_size_of_view view = some n) (hn : ¬ 0 < n)
    (htp : tryPull s.unread (Pull.untilStr crlfL) = some (v, rest)) :
    on_data_step env s view =
      Sum.inr ({ s with state := s.state ^^^ (stCS ||| stRF),
                        unread := rest, pending := none }, v, []) := by
  simp only [on_data_step, h1, h2, ne_eq, not_true_eq_false, if_false,
    not_false_eq_true, if_pos h3, hcs, hn, htp]

theorem on_data_step_CD_cb_pend {env : Env} {s : S} {view : List Char}
    (h1 : s.state &&& stRH = 0) (h2 : s.state &&& stWB = 0)
    (h3 : s.state &&& stCS = 0) (h4 : s.state &&& stCD ≠ 0)
    (hcb : env.hasOnBodyChunk = true)
    (htp : tryPull s.unread (Pull.untilStr crlfL) = none) :
    on_data_step env s view =
      Sum.inl ({ s with state := s.state ^^^ (stCD ||| stCS),
                        pending := some (Pull.untilStr crlfL) },
        [Ev.onBodyChunk (view.take (view.length - 2))]) := by
  simp only [on_data_step, h1, h2, h3, ne_eq, not_true_eq_false, if_false,
    not_false_eq_true, if_pos h4, hcb, if_true, htp]

theorem on_data_step_CD_cb_sync {env : Env} {s : S} {view : List Char}
    {v rest : List Char}
    (h1 : s.state &&& stRH = 0) (h2 : s.state &&& stWB = 0)
    (h3 : s.state &&& stCS = 0) (h4 : s.state &&& stCD ≠ 0)
    (hcb : env.hasOnBodyChunk = true)
    (htp : tryPull s.unread (Pull.untilStr crlfL) = some (v, rest)) :
    on_data_step env s view =
      Sum.inr ({ s with state := s.state ^^^ (stCD ||| stCS),
                        unread := rest, pending := none },
        v, [Ev.onBodyChunk (view.take (view.length - 2))]) := by
  simp only [on_data_step, h1, h2, h3, ne_eq, not_true_eq_false, if_false,
    not_false_eq_true, if_pos h4, hcb, if_true, htp]

theorem on_data_step_CD_cache_pend {env : Env} {s : S} {view : List Char}
    (h1 : s.state &&& stRH = 0) (h2 : s.state &&& stWB = 0)
    (h3 : s.state &&& stCS = 0) (h4 : s.state &&& stCD ≠ 0)
    (hcb : env.hasOnBodyChunk = false)
    (htp : tryPull s.unread (Pull.untilStr crlfL) = none) :
    on_data_step env s view =
      Sum.inl ({ s with
          chunk_body_cache := some (s.chunk_body_cache.getD [] ++ view.take (view.length - 2)),
          state := s.state ^^^ (stCD ||| stCS),
          pending := some (Pull.untilStr crlfL) }, []) := by
  simp only [on_data_step, h1, h2, h3, ne_eq, not_true_eq_false, if_false,
    not_false_eq_true, if_pos h4, hcb, Bool.false_eq_true, htp]

theorem on_data_step_CD_cache_sync {env : Env} {s : S} {view : List Char}
    {v rest : List Char}
    (h1 : s.state &&& stRH = 0) (h2 : s.state &&& stWB = 0)
    (h3 : s.state &&& stCS = 0) (h4 : s.state &&& stCD ≠ 0)
    (hcb : env.hasOnBodyChunk = false)
    (htp : tryPull s.unread (Pull.untilStr crlfL) = some (v, rest)) :
    on_data_step env s view =
      Sum.inr ({ s with
          chunk_body_cache := some (s.chunk_body_cache.getD [] ++ view.take (view.length - 2)),
          state := s.state ^^^ (stCD ||| stCS),
          unread := rest, pending := none }, v, []) := by
  simp only [on_data_step, h1, h2, h3, ne_eq, not_true_eq_false, if_false,
    not_false_eq_true, if_pos h4, hcb, Bool.false_eq_true, htp]

theorem on_data_step_RF_pend {env : Env} {s : S} {view : List Char}
    (h1 : s.state &&& stRH = 0) (h2 : s.state &&& stWB = 0)
    (h3 : s.state &&& stCS = 0) (h4 : s.state &&& stCD = 0)
    (h5 : s.state &&& stRF ≠ 0)
    (hv : 0 < view.length)
    (htp : tryPull s.unread (Pull.untilStr crlfL) = none) :
    on_data_step env s view =
      Sum.inl ({ s with pending := some (Pull.untilStr crlfL) }, []) := by
  simp only [on_data_step, h1, h2, h3, h4, ne_eq, not_true_eq_false, if_false,
    not_false_eq_true, if_pos h5, hv, if_true, htp]

theorem on_data_step_RF_sync {env : Env} {s : S} {view : List Char}
    {v rest : List Char}
    (h1 : s.state &&& stRH = 0) (h2 : s.state &&& stWB = 0)
    (h3 : s.state &&& stCS = 0) (h4 : s.state &&& stCD = 0)
    (h5 : s.state &&& stRF ≠ 0)
    (hv : 0 < view.length)
    (htp : tryPull s.unread (Pull.untilStr crlfL) = some (v, rest)) :
    on_data_step env s view =
      Sum.inr ({ s with unread := rest, pending := none }, v, []) := by
  simp only [on_data_step, h1, h2, h3, h4, ne_eq, not_true_eq_false, if_false,
    not_false_eq_true, if_pos h5, hv, if_true, htp]

theorem on_data_step_RF_done {env : Env} {s : S} {view : List Char}
    (h1 : s.state &&& stRH = 0) (h2 : s.state &&& stWB = 0)
    (h3 : s.state &&& stCS = 0) (h4 : s.state &&& stCD = 0)
    (h5 : s.state &&& stRF ≠ 0)
    (hv : ¬ 0 < view.length) :
    on_data_step env s view =
      Sum.inl ({ s with state := s.state ^^^ (stRF ||| stRC),
                        post_data := s.chunk_body_cache,
                        post_size := (s.chunk_body_cache.getD []).length },
        [Ev.onRequestEnd s.chunk_body_cache ((s.chunk_body_cache.getD []).length)]) := by
  rcases hc : s.chunk_body_cache with _ | buf <;>
    simp only [on_data_step, h1, h2, h3, h4, ne_eq, not_true_eq_false, if_false,
      not_false_eq_true, if_pos h5, hv, hc, Option.getD_none, Option.getD_some,
      List.length_nil]

theorem on_data_step_none {env : Env} {s : S} {view : List Char}
    (h1 : s.state &&& stRH = 0) (h2 : s.state &&& stWB = 0)
    (h3 : s.state &&& stCS = 0) (h4 : s.state &&& stCD = 0)
    (h5 : s.state &&& stRF = 0) :
    on_data_step env s view = Sum.inl (s, []) := by
  simp only [on_data_step, h1, h2, h3, h4, h5, ne_eq, not_true_eq_false, if_false]

/-! ## Incremental delivery: appending bytes commutes with the state machine

These lemmas establish that the machine's behavior on `u ++ b` is the
behavior on `u` continued with `b` — the heart of chunking insensitivity. -/

theorem tryPull_extend {u b v rest : List Char} {q : Pull}
    (h : tryPull u q = some (v, rest)) :
    tryPull (u ++ b) q = some (v, rest ++ b) := by
  cases q with
  | bytes n =>
    simp only [tryPull] at h ⊢
    split at h
    · next hle =>
      cases h
      rw [if_pos (by simp; omega)]
      rw [List.take_append_eq_append_take, List.drop_append_eq_append_drop]
      congr 2
      · rw [Nat.sub_eq_zero_of_le hle, List.take_zero, List.append_nil]
      · rw [Nat.sub_eq_zero_of_le hle, List.drop_zero]
    · exact absurd h (by simp)
  | untilStr d =>
    simp only [tryPull] at h ⊢
    rcases hf : findSub d u with _ | i
    · rw [hf] at h
      exact absurd h (by simp)
    · rw [hf] at h
      cases h
      have hb := findSub_some_le hf
      rw [findSub_append hf]
      show some (List.take i (u ++ b), List.drop (i + d.length) (u ++ b)) = _
      rw [List.take_append_eq_append_take, List.drop_append_eq_append_drop]
      congr 2
      · rw [Nat.sub_eq_zero_of_le (by omega), List.take_zero, List.append_nil]
      · rw [Nat.sub_eq_zero_of_le hb, List.drop_zero]

theorem tryPull_le {u v rest : List Char} {q : Pull}
    (h : tryPull u q = some (v, rest)) : rest.length ≤ u.length := by
  cases q with
  | bytes n =>
    simp only [tryPull] at h
    split at h
    · cases h
      simp
    · exact absurd h (by simp)
  | untilStr d =>
    simp only [tryPull] at h
    rcases hf : findSub d u with _ | i <;> rw [hf] at h
    · exact absurd h (by simp)
    · cases h
      simp

theorem pullConsumes_bytes {n : Nat} (hn : n ≠ 0) : PullConsumes (Pull.bytes n) := by
  intro u v rest h
  simp only [tryPull] at h
  split at h
  · next hle =>
    cases h
    simp only [List.length_drop]
    omega
  · exact absurd h (by simp)

theorem pullConsumes_until_crlf : PullConsumes (Pull.untilStr crlfL) := by
  intro u v rest h
  simp only [tryPull] at h
  rcases hf : findSub crlfL u with _ | i <;> rw [hf] at h
  · exact absurd h (by simp)
  · cases h
    have hb : i + 2 ≤ u.length := by
      simpa [crlfL] using findSub_some_le hf
    have hcl : crlfL.length = 2 := rfl
    simp only [List.length_drop, hcl]
    omega

theorem and_rc_zero_iff {x : Nat} : x &&& stRC = 0 ↔ x.testBit 6 = false := by
  have h64 : stRC = 2 ^ 6 := rfl
  rw [h64, Nat.and_two_pow]
  cases hx : x.testBit 6 <;> simp [hx]

theorem and_rc_xor {x m : Nat} (hx : x &&& stRC = 0) (hm : m.testBit 6 = false) :
    (x ^^^ m) &&& stRC = 0 := by
  rw [and_rc_zero_iff] at hx ⊢
  simp [Nat.testBit_xor, hx, hm]

theorem and_rc_step {x m1 m2 : Nat} (hx : x &&& stRC = 0)
    (h1 : m1.testBit 6 = false) (h2 : m2.testBit 6 = false) :
    ((x ^^^ m1) ||| m2) &&& stRC = 0 := by
  rw [and_rc_zero_iff] at hx ⊢
  simp [Nat.testBit_or, Nat.testBit_xor, hx, h1, h2]

/-- Classification of one `on_data_step` round with respect to appending
extra producer bytes `b` to the unread buffer.  Either the round returns
without arming a pull (terminal or no-op; the extended run returns the same
state with `b` still unread), or it arms a pull that is unsatisfied on `u`
(the extended run either also pends, or satisfies the same pull and
continues from the identical continuation state), or it continues
synchronously (the extended run continues from the same state with `b`
appended).  This is the single place where the branch structure of `on_data`
is enumerated. -/
theorem on_data_step_classify (env : Env) (s : S) (view b : List Char)
    (hp : s.pending = none) :
    (∃ r es, on_data_step env s view = Sum.inl (r, es) ∧ r.pending = none ∧
      r.unread = s.unread ∧
      on_data_step env { s with unread := s.unread ++ b } view =
        Sum.inl ({ r with unread := r.unread ++ b }, es)) ∨
    (∃ r es q, on_data_step env s view = Sum.inl (r, es) ∧ r.pending = some q ∧
      r.unread = s.unread ∧ (s.state &&& stRC = 0 → r.state &&& stRC = 0) ∧
      PullConsumes q ∧ tryPull s.unread q = none ∧
      (tryPull (s.unread ++ b) q = none →
        on_data_step env { s with unread := s.unread ++ b } view =
          Sum.inl ({ r with unread := r.unread ++ b }, es)) ∧
      (∀ v' rest', tryPull (s.unread ++ b) q = some (v', rest') →
        on_data_step env { s with unread := s.unread ++ b } view =
          Sum.inr ({ r with unread := rest', pending := none }, v', es))) ∨
    (∃ r es v rest, on_data_step env s view = Sum.inr (r, v, es) ∧ r.pending = none ∧
      r.unread = rest ∧ (s.state &&& stRC = 0 → r.state &&& stRC = 0) ∧
      rest.length + 1 ≤ s.unread.length ∧
      on_data_step env { s with unread := s.unread ++ b } view =
        Sum.inr ({ r with unread := rest ++ b }, v, es)) := by
  by_cases h1 : s.state &&& stRH = 0
  · by_cases h2 : s.state &&& stWB = 0
    · by_cases h3 : s.state &&& stCS = 0
      · by_cases h4 : s.state &&& stCD = 0
        · by_cases h5 : s.state &&& stRF = 0
          · -- no active section
            refine Or.inl ⟨_, _, on_data_step_none h1 h2 h3 h4 h5, hp, rfl, ?_⟩
            exact on_data_step_none h1 h2 h3 h4 h5
          · -- ReadingFooters
            by_cases hv : 0 < view.length
            · rcases htp : tryPull s.unread (Pull.untilStr crlfL) with _ | ⟨v, rest⟩
              · refine Or.inr (Or.inl ⟨_, _, _,
                  on_data_step_RF_pend h1 h2 h3 h4 h5 hv htp, rfl, rfl,
                  fun hx => hx,
                  pullConsumes_until_crlf, htp, ?_, ?_⟩)
                · intro htpb
                  exact on_data_step_RF_pend h1 h2 h3 h4 h5 hv htpb
                · intro v' rest' htpb
                  exact on_data_step_RF_sync h1 h2 h3 h4 h5 hv htpb
              · refine Or.inr (Or.inr ⟨_, _, _, _,
                  on_data_step_RF_sync h1 h2 h3 h4 h5 hv htp, rfl, rfl,
                  fun hx => hx,
                  pullConsumes_until_crlf _ _ _ htp, ?_⟩)
                exact on_data_step_RF_sync h1 h2 h3 h4 h5 hv (tryPull_extend htp)
            · -- empty footer line: finalize
              refine Or.inl ⟨_, _, on_data_step_RF_done h1 h2 h3 h4 h5 hv, hp, rfl, ?_⟩
              exact on_data_step_RF_done h1 h2 h3 h4 h5 hv
        · -- ReadingChunkData
          by_cases hcb : env.hasOnBodyChunk = true
          · rcases htp : tryPull s.unread (Pull.untilStr crlfL) with _ | ⟨v, rest⟩
            · refine Or.inr (Or.inl ⟨_, _, _,
                on_data_step_CD_cb_pend h1 h2 h3 h4 hcb htp, rfl, rfl,
                fun hx => and_rc_xor hx (by decide),
                pullConsumes_until_crlf, htp, ?_, ?_⟩)
              · intro htpb
                exact on_data_step_CD_cb_pend h1 h2 h3 h4 hcb htpb
              · intro v' rest' htpb
                exact on_data_step_CD_cb_sync h1 h2 h3 h4 hcb htpb
            · refine Or.inr (Or.inr ⟨_, _, _, _,
                on_data_step_CD_cb_sync h1 h2 h3 h4 hcb htp, rfl, rfl,
                fun hx => and_rc_xor hx (by decide),
                pullConsumes_until_crlf _ _ _ htp, ?_⟩)
              exact on_data_step_CD_cb_sync h1 h2 h3 h4 hcb (tryPull_extend htp)
          · have hcb' : env.hasOnBodyChunk = false := Bool.not_eq_true _ ▸ hcb
            rcases htp : tryPull s.unread (Pull.untilStr crlfL) with _ | ⟨v, rest⟩
            · refine Or.inr (Or.inl ⟨_, _, _,
                on_data_step_CD_cache_pend h1 h2 h3 h4 hcb' htp, rfl, rfl,
                fun hx => and_rc_xor hx (by decide),
                pullConsumes_until_crlf, htp, ?_, ?_⟩)
              · intro htpb
                exact on_data_step_CD_cache_pend h1 h2 h3 h4 hcb' htpb
              · intro v' rest' htpb
                exact on_data_step_CD_cache_sync h1 h2 h3 h4 hcb' htpb
            · refine Or.inr (Or.inr ⟨_, _, _, _,
                on_data_step_CD_cache_sync h1 h2 h3 h4 hcb' htp, rfl, rfl,
                fun hx => and_rc_xor hx (by decide),
                pullConsumes_until_crlf _ _ _ htp, ?_⟩)
              exact on_data_step_CD_cache_sync h1 h2 h3 h4 hcb' (tryPull_extend htp)
      · -- ReadingChunkSize
        rcases hcs : chunk_size_of_view view with _ | n
        · refine Or.inl ⟨_, _, on_data_step_CS_err h1 h2 h3 hcs, hp, rfl, ?_⟩
          exact on_data_step_CS_err h1 h2 h3 hcs
        · by_cases hn : 0 < n
          · rcases htp : tryPull s.unread (Pull.bytes (n + 2)) with _ | ⟨v, rest⟩
            · refine Or.inr (Or.inl ⟨_, _, _,
                on_data_step_CS_pos_pend h1 h2 h3 hcs hn htp, rfl, rfl,
                fun hx => and_rc_xor hx (by decide),
                pullConsumes_bytes (by omega), htp, ?_, ?_⟩)
              · intro htpb
                exact on_data_step_CS_pos_pend h1 h2 h3 hcs hn htpb
              · intro v' rest' htpb
                exact on_data_step_CS_pos_sync h1 h2 h3 hcs hn htpb
            · refine Or.inr (Or.inr ⟨_, _, _, _,
                on_data_step_CS_pos_sync h1 h2 h3 hcs hn htp, rfl, rfl,
                fun hx => and_rc_xor hx (by decide),
                pullConsumes_bytes (by omega) _ _ _ htp, ?_⟩)
              exact on_data_step_CS_pos_sync h1 h2 h3 hcs hn (tryPull_extend htp)
          · rcases htp : tryPull s.unread (Pull.untilStr crlfL) with _ | ⟨v, rest⟩
            · refine Or.inr (Or.inl ⟨_, _, _,
                on_data_step_CS_zero_pend h1 h2 h3 hcs hn htp, rfl, rfl,
                fun hx => and_rc_xor hx (by decide),
                pullConsumes_until_crlf, htp, ?_, ?_⟩)
              · intro htpb
                exact on_data_step_CS_zero_pend h1 h2 h3 hcs hn htpb
              · intro v' rest' htpb
                exact on_data_step_CS_zero_sync h1 h2 h3 hcs hn htpb
            · refine Or.inr (Or.inr ⟨_, _, _, _,
                on_data_step_CS_zero_sync h1 h2 h3 hcs hn htp, rfl, rfl,
                fun hx => and_rc_xor hx (by decide),
                pullConsumes_until_crlf _ _ _ htp, ?_⟩)
              exact on_data_step_CS_zero_sync h1 h2 h3 hcs hn (tryPull_extend htp)
    · -- ReadingWholeBody: terminal
      refine Or.inl ⟨_, _, on_data_step_WB h1 h2, hp, rfl, ?_⟩
      exact on_data_step_WB h1 h2
  · -- ReadingHeaders
    by_cases hfail : (parse_request_and_headers env.stray s.protocol s.headers view).2.2
        = false
    · refine Or.inl ⟨_, _, on_data_step_RH_fail h1 rfl hfail, hp, rfl, ?_⟩
      exact on_data_step_RH_fail h1 rfl hfail
    · have hok : (parse_request_and_headers env.stray s.protocol s.headers view).2.2
          = true := by
        cases hx : (parse_request_and_headers env.stray s.protocol s.headers view).2.2
        · exact absurd hx hfail
        · rfl
      by_cases hcl : stla_uint64_t (get_header_param
          (parse_request_and_headers env.stray s.protocol s.headers view).2.1
          "Content-Length".toList) 0 = 0
      · by_cases hch : ((get_header_param
            (parse_request_and_headers env.stray s.protocol s.headers view).2.1
            "Transfer-Encoding".toList).map isChunkedTE).getD false = true
        · rcases htp : tryPull s.unread (Pull.untilStr crlfL) with _ | ⟨v, rest⟩
          · refine Or.inr (Or.inl ⟨_, _, _,
              on_data_step_RH_chunked_pend h1 rfl hok hcl hch htp, rfl, rfl,
              fun hx => and_rc_step hx (by decide) (by decide),
              pullConsumes_until_crlf, htp, ?_, ?_⟩)
            · intro htpb
              exact on_data_step_RH_chunked_pend h1 rfl hok hcl hch htpb
            · intro v' rest' htpb
              exact on_data_step_RH_chunked_sync h1 rfl hok hcl hch htpb
          · refine Or.inr (Or.inr ⟨_, _, _, _,
              on_data_step_RH_chunked_sync h1 rfl hok hcl hch htp, rfl, rfl,
              fun hx => and_rc_step hx (by decide) (by decide),
              pullConsumes_until_crlf _ _ _ htp, ?_⟩)
            exact on_data_step_RH_chunked_sync h1 rfl hok hcl hch (tryPull_extend htp)
        · have hch' : ((get_header_param
              (parse_request_and_headers env.stray s.protocol s.headers view).2.1
              "Transfer-Encoding".toList).map isChunkedTE).getD false = false :=
            Bool.not_eq_true _ ▸ hch
          refine Or.inl ⟨_, _, on_data_step_RH_nobody h1 rfl hok hcl hch', hp, rfl, ?_⟩
          exact on_data_step_RH_nobody h1 rfl hok hcl hch'
      · rcases htp : tryPull s.unread (Pull.bytes (stla_uint64_t (get_header_param
            (parse_request_and_headers env.stray s.protocol s.headers view).2.1
            "Content-Length".toList) 0)) with _ | ⟨v, rest⟩
        · refine Or.inr (Or.inl ⟨_, _, _,
            on_data_step_RH_cl_pend h1 rfl hok rfl hcl htp, rfl, rfl,
            fun hx => and_rc_step hx (by decide) (by decide),
            pullConsumes_bytes hcl, htp, ?_, ?_⟩)
          · intro htpb
            exact on_data_step_RH_cl_pend h1 rfl hok rfl hcl htpb
          · intro v' rest' htpb
            exact on_data_step_RH_cl_sync h1 rfl hok rfl hcl htpb
        · refine Or.inr (Or.inr ⟨_, _, _, _,
            on_data_step_RH_cl_sync h1 rfl hok rfl hcl htp, rfl, rfl,
            fun hx => and_rc_step hx (by decide) (by decide),
            pullConsumes_bytes hcl _ _ _ htp, ?_⟩)
          exact on_data_step_RH_cl_sync h1 rfl hok rfl hcl (tryPull_extend htp)

/-- `on_data` is independent of the fuel once the fuel exceeds the number of
unread bytes: each continued round consumes at least one of them. -/
theorem on_data_congr (env : Env) : ∀ (fuel1 fuel2 : Nat) (s : S) (view : List Char),
    s.pending = none →
    s.unread.length + 1 ≤ fuel1 → s.unread.length + 1 ≤ fuel2 →
    on_data env fuel1 s view = on_data env fuel2 s view := by
  intro fuel1
  induction fuel1 with
  | zero =>
    intro fuel2 s view hp hle1 hle2
    omega
  | succ f ih =>
    intro fuel2 s view hp hle1 hle2
    rcases fuel2 with _ | f2
    · omega
    · rcases on_data_step_classify env s view [] hp with
        ⟨r, es, hstep, _, _, _⟩ |
        ⟨r, es, q, hstep, _, _, _, _, _, _, _⟩ |
        ⟨r, es, v, rest, hstep, hpnone, hru, _, hlen, _⟩
      · rw [on_data_succ_inl hstep, on_data_succ_inl hstep]
      · rw [on_data_succ_inl hstep, on_data_succ_inl hstep]
      · rw [on_data_succ_inr hstep, on_data_succ_inr hstep]
        rw [ih f2 r v hpnone (by rw [hru]; omega) (by rw [hru]; omega)]

/-- Terminal results of `on_data` carry no outstanding pull: the terminal
paths of `on_data` return without arming one. -/
theorem on_data_terminal_pending (env : Env) :
    ∀ (fuel : Nat) (s : S) (view : List Char),
    s.pending = none → s.state &&& stRC = 0 →
    (on_data env fuel s view).1.state &&& stRC ≠ 0 →
    (on_data env fuel s view).1.pending = none := by
  intro fuel
  induction fuel with
  | zero =>
    intro s view hp hrc hterm
    exact absurd (by exact hrc) (by simpa [on_data] using hterm)
  | succ f ih =>
    intro s view hp hrc hterm
    rcases on_data_step_classify env s view [] hp with
      ⟨r, es, hstep, hpnone, _, _⟩ |
      ⟨r, es, q, hstep, hpsome, _, hrcr, _, _, _, _⟩ |
      ⟨r, es, v, rest, hstep, hpnone, hru, hrcr, hlen, _⟩
    · rw [on_data_succ_inl hstep]
      exact hpnone
    · rw [on_data_succ_inl hstep] at hterm
      exact absurd (hrcr hrc) hterm
    · rw [on_data_succ_inr hstep] at hterm ⊢
      exact ih r v hpnone (hrcr hrc) hterm

/-- The key incrementality lemma: running `on_data` with `b` extra unread
bytes equals running it without them and then delivering the now-satisfied
pull (if any) on the extended buffer. -/
theorem on_data_extend (env : Env) : ∀ (fuel : Nat) (s : S) (view b : List Char),
    s.pending = none → s.unread.length + 1 ≤ fuel →
    on_data env (fuel + b.length) { s with unread := s.unread ++ b } view =
      ((pump env { (on_data env fuel s view).1 with
          unread := (on_data env fuel s view).1.unread ++ b }).1,
       (on_data env fuel s view).2 ++
        (pump env { (on_data env fuel s view).1 with
          unread := (on_data env fuel s view).1.unread ++ b }).2) := by
  intro fuel
  induction fuel with
  | zero =>
    intro s view b hp hle
    omega
  | succ f ih =>
    intro s view b hp hle
    rcases on_data_step_classify env s view b hp with
      ⟨r, es, hstep, hpnone, hru, hext⟩ |
      ⟨r, es, q, hstep, hpsome, hru, _, hcons, htpu, hextn, hexts⟩ |
      ⟨r, es, v, rest, hstep, hpnone, hru, _, hlen, hext⟩
    · rw [show f + 1 + b.length = (f + b.length) + 1 from by omega,
        on_data_succ_inl hext, on_data_succ_inl hstep]
      simp [pump, hpnone]
    · rcases htpb : tryPull (s.unread ++ b) q with _ | ⟨v', rest'⟩
      · rw [show f + 1 + b.length = (f + b.length) + 1 from by omega,
          on_data_succ_inl (hextn htpb), on_data_succ_inl hstep]
        simp [pump, hpsome, hru, htpb]
      · rw [show f + 1 + b.length = (f + b.length) + 1 from by omega,
          on_data_succ_inr (hexts v' rest' htpb), on_data_succ_inl hstep]
        have hcongr := on_data_congr env (f + b.length) ((r.unread ++ b).length + 1)
          { r with unread := rest', pending := none } v' rfl
          (by
            have := hcons _ _ _ htpb
            simp only [List.length_append] at this ⊢
            omega)
          (by
            have := hcons _ _ _ htpb
            rw [hru]
            simp only [List.length_append] at this ⊢
            omega)
        rw [hcongr]
        simp [pump, hpsome, hru, htpb]
    · rw [show f + 1 + b.length = (f + b.length) + 1 from by omega,
        on_data_succ_inr hext, on_data_succ_inr hstep]
      have hihr := ih r v b hpnone (by rw [hru]; omega)
      rw [hru] at hihr
      rw [hihr]
      simp [List.append_assoc]

/-- Incrementality at the `pump` level. -/
theorem pump_extend (env : Env) (s : S) (b : List Char) :
    pump env { s with unread := s.unread ++ b } =
      ((pump env { (pump env s).1 with
          unread := (pump env s).1.unread ++ b }).1,
       (pump env s).2 ++
        (pump env { (pump env s).1 with
          unread := (pump env s).1.unread ++ b }).2) := by
  rcases hq : s.pending with _ | q
  · simp [pump, hq]
  · rcases htp : tryPull s.unread q with _ | ⟨v, rest⟩
    · rcases htpb : tryPull (s.unread ++ b) q with _ | ⟨v', rest'⟩
      · simp [pump, hq, htp, htpb]
      · simp [pump, hq, htp, htpb]
    · have htpb := tryPull_extend (b := b) htp
      have hlen : rest.length ≤ s.unread.length := tryPull_le htp
      have hx := on_data_extend env (s.unread.length + 1)
        { s with unread := rest, pending := none } v b rfl
        (by
          show rest.length + 1 ≤ s.unread.length + 1
          omega)
      have hps : pump env s =
          on_data env (s.unread.length + 1)
            { s with unread := rest, pending := none } v := by
        simp only [pump, hq, htp]
      have hlhs : pump env { s with unread := s.unread ++ b, pending := some q } =
          on_data env (s.unread.length + 1 + b.length)
            { s with unread := rest ++ b, pending := none } v := by
        simp only [pump, htpb, List.length_append]
        rw [Nat.add_right_comm]
      refine hlhs.trans (Eq.trans hx ?_)
      rw [hps]

/-- Terminal results of `pump` carry no outstanding pull. -/
theorem pump_terminal_pending (env : Env) (s : S)
    (hrc : s.state &&& stRC = 0)
    (hterm : (pump env s).1.state &&& stRC ≠ 0) :
    (pump env s).1.pending = none := by
  rcases hq : s.pending with _ | q
  · simp only [pump, hq] at hterm
    exact absurd hrc hterm
  · rcases htp : tryPull s.unread q with _ | ⟨v, rest⟩
    · simp only [pump, hq, htp] at hterm
      exact absurd hrc hterm
    · simp only [pump, hq, htp] at hterm ⊢
      exact on_data_terminal_pending env _ _ _ rfl hrc hterm

/-- Composition of two `stla_http_parse` feeds: feeding `a ++ b` in one call
equals feeding `a` then `b`, provided neither the starting state nor the
state after `a` is terminal. -/
theorem stla_http_parse_append (env : Env) (s : S) (a b : List Char)
    (h1 : s.state &&& stRC = 0)
    (h2 : (stla_http_parse env s a).1.state &&& stRC = 0) :
    stla_http_parse env s (a ++ b) =
      ((stla_http_parse env (stla_http_parse env s a).1 b).1,
       (stla_http_parse env s a).2 ++
        (stla_http_parse env (stla_http_parse env s a).1 b).2) := by
  have hg1 : ¬ s.state &&& stRC ≠ 0 := by simpa using h1
  have e1 : stla_http_parse env s a = pump env { s with unread := s.unread ++ a } := by
    simp only [stla_http_parse, if_neg hg1]
  have e2 : stla_http_parse env s (a ++ b) =
      pump env { s with unread := (s.unread ++ a) ++ b } := by
    simp only [stla_http_parse, if_neg hg1, List.append_assoc]
  rw [e1] at h2
  have hg2 : ¬ (pump env { s with unread := s.unread ++ a }).1.state &&& stRC ≠ 0 := by
    simpa using h2
  rw [e2, e1]
  have e3 : stla_http_parse env (pump env { s with unread := s.unread ++ a }).1 b =
      pump env { (pump env { s with unread := s.unread ++ a }).1 with
        unread := (pump env { s with unread := s.unread ++ a }).1.unread ++ b } := by
    simp only [stla_http_parse, if_neg hg2]
  rw [e3]
  exact pump_extend env { s with unread := s.unread ++ a } b

/-- `feedAll` splits over list append. -/
theorem feedAll_append (env : Env) : ∀ (xs ys : List (List Char)) (s : S),
    feedAll env s (xs ++ ys) =
      ((feedAll env (feedAll env s xs).1 ys).1,
       (feedAll env s xs).2 ++ (feedAll env (feedAll env s xs).1 ys).2) := by
  intro xs
  induction xs with
  | nil =>
    intro ys s
    simp [feedAll]
  | cons c cs ih =>
    intro ys s
    simp only [List.cons_append, feedAll, List.append_eq]
    rw [ih]
    simp [List.append_assoc]

theorem acquireN_reachable {g : Group} (hg : GroupReachable g) (n : Nat) :
    GroupReachable (acquireN g n) := by
  induction n with
  | zero => exact hg
  | succ n ih => exact GroupReachable.acquire ih

theorem group_invariant {g : Group} (hg : GroupReachable g) :
    g.freeLen + g.outstandingPool = g.pool_size ∧ g.pool_size ≤ 255 := by
  induction hg with
  | init => exact ⟨rfl, by decide⟩
  | acquire hg ih =>
    rcases ih with ⟨h1, h2⟩
    unfold stla_http_init_group_effect
    split
    · next h => simp only; omega
    · split
      · next h => simp only [max_parser_group] at h ⊢; omega
      · exact ⟨h1, h2⟩
  | release hg hout ih =>
    rcases ih with ⟨h1, h2⟩
    unfold stla_http_release_group_effect
    simp only
    omega

/-! ## Claim C9 -/

/-- C9: calling `stla_http_parse` on a parser whose state already includes
`read_complete` fires `on_parsing_error` again and forwards no bytes to the
underlying byte reader, leaving the parser's buffered state (and all other
fields) unchanged; the fed bytes are ignored. -/
theorem c9_parse_after_read_complete (env : Env) (s : S) (data : List Char)
    (h : s.state &&& stRC ≠ 0) :
    stla_http_parse env s data = (s, [Ev.onParsingError]) := by
  simp [stla_http_parse, h]

theorem c9_witness :
    ((stla_http_parse envNoChunkCb freshParser reqGET).1.state &&& stRC ≠ 0) ∧
    stla_http_parse envNoChunkCb (stla_http_parse envNoChunkCb freshParser reqGET).1
        "extra bytes".toList =
      ((stla_http_parse envNoChunkCb freshParser reqGET).1, [Ev.onParsingError]) :=
  ⟨by decide,
   c9_parse_after_read_complete envNoChunkCb
     (stla_http_parse envNoChunkCb freshParser reqGET).1 "extra bytes".toList (by decide)⟩

/-- C5 counterexample: `g255` is reachable, its free list is empty and its
`pool_size = 255 < 256 = MAX_POOL`, yet acquiring constructs a *non-pool*
parser and does not increment `pool_size` — the guard in the source is
`pool_size + 1 < max_parser_group`, not `pool_size < max_parser_group`. -/
theorem c5_counterexample :
    GroupReachable g255 ∧ g255.freeLen = 0 ∧ g255.pool_size < max_parser_group ∧
    (stla_http_init_group_effect g255).2 = AcquireKind.freshNonPool ∧
    (stla_http_init_group_effect g255).1.pool_size = g255.pool_size :=
  ⟨acquireN_reachable GroupReachable.init 255, by decide, by decide, by decide, by decide⟩

/-- C5 amended: with an empty free list a fresh pool member is constructed
(and `pool_size` incremented) exactly when `pool_size + 1 < 256`, i.e. up to
a cap of 255 pool members; otherwise a non-pool parser is constructed and
the group state is unchanged; in every reachable group state
`pool_size ≤ 255` (hence also ≤ 256, and the group never holds more than
255 pool-member parsers). -/
theorem c5_pool_discipline (g : Group) (hg : GroupReachable g) :
    g.pool_size ≤ 255 ∧
    (g.freeLen = 0 → g.pool_size + 1 < max_parser_group →
      (stla_http_init_group_effect g).2 = AcquireKind.freshPoolMember ∧
      (stla_http_init_group_effect g).1.pool_size = g.pool_size + 1) ∧
    (g.freeLen = 0 → ¬ g.pool_size + 1 < max_parser_group →
      (stla_http_init_group_effect g).2 = AcquireKind.freshNonPool ∧
      (stla_http_init_group_effect g).1 = g) := by
  refine ⟨(group_invariant hg).2, ?_, ?_⟩ <;>
    intro h1 h2 <;>
    simp [stla_http_init_group_effect, h1, h2]

theorem c5_pool_discipline_witness :
    (⟨0, 0, 0⟩ : Group).pool_size ≤ 255 ∧
    ((⟨0, 0, 0⟩ : Group).freeLen = 0 →
      (⟨0, 0, 0⟩ : Group).pool_size + 1 < max_parser_group →
      (stla_http_init_group_effect ⟨0, 0, 0⟩).2 = AcquireKind.freshPoolMember ∧
      (stla_http_init_group_effect ⟨0, 0, 0⟩).1.pool_size = (⟨0, 0, 0⟩ : Group).pool_size + 1) ∧
    ((⟨0, 0, 0⟩ : Group).freeLen = 0 →
      ¬ (⟨0, 0, 0⟩ : Group).pool_size + 1 < max_parser_group →
      (stla_http_init_group_effect ⟨0, 0, 0⟩).2 = AcquireKind.freshNonPool ∧
      (stla_http_init_group_effect ⟨0, 0, 0⟩).1 = ⟨0, 0, 0⟩) :=
  c5_pool_discipline ⟨0, 0, 0⟩ GroupReachable.init

/-! ## Claim C2 -/

/-- C2: the chunk size is *not* parsed as hexadecimal.  The source collects
up to 63 leading hex digits into `buf` but then converts with
`sscanf(buf, "%zu", ...)`, a decimal conversion (contradicting the source's
own comment `Format: "5E\r\n"`): the size line `a` (= 10 in HTTP chunked
encoding) fails the conversion and fires `on_parsing_error`, and a line
`5E` would yield 5, not 0x5E = 94. -/
theorem c2_chunk_size_is_decimal_eval :
    (stla_http_parse envNoChunkCb freshParser reqChunkHexA).2 =
      [Ev.onHeaders, Ev.onParsingError] ∧
    chunk_size_of_view "a\r\n".toList = none ∧
    chunk_size_of_view "5E\r\n".toList = some 5 := by
  decide

/-! ## Claim C7 -/

/-- Interlude: the full S5 scenario checked end to end (not itself a claim
theorem; kept as a sanity check of the embedding — the general
chunk-accumulation theorem is `c7_chunk_accumulation` below). -/
theorem s5_scenario_check :
    (stla_http_parse envNoChunkCb freshParser reqChunked).2 =
      [Ev.onHeaders, Ev.onRequestEnd (some "hello world".toList) 11] := by
  decide

/-! ## Claim C3 -/

/-- C3: evaluation at the failing input.  For `"????\r\n\r\n"` the
request-line check of the source tests only that the `method`/`uri`/
`protocol` *pointers* are non-null; `method` and `uri` are always assigned,
and `protocol` keeps its previous value when the line has no space or tab.
On a parser recycled from the free list (previous request S1) — and equally
on a fresh parser whose uninitialized `protocol` field is non-null garbage —
`on_headers` (and then `on_request_end`) fires instead of the claimed single
`on_parsing_error`; only when the uninitialized field happens to be null
does the parse fail as claimed. -/
theorem c3_bad_request_line_eval :
    (stla_http_parse envNoChunkCb recycledAfterGET reqBad).2 =
      [Ev.onHeaders, Ev.onRequestEnd none 0] ∧
    (stla_http_parse envNoChunkCb (stla_http_init baseGarbage) reqBad).2 =
      [Ev.onHeaders, Ev.onRequestEnd none 0] ∧
    (stla_http_parse envNoChunkCb freshParser reqBad).2 = [Ev.onParsingError] := by
  decide

/-! ## Claim C10 -/

/-- C10 counterexample: a chunk-size line whose leading hex-digit run has
64 digits (all `a`) does *not* silently yield a size computed from the first
63 digits — the decimal `sscanf` conversion fails on `aaa…` and the parser
fires `on_parsing_error`. -/
theorem c10_counterexample :
    64 ≤ (hexRun64.takeWhile isxdigitC).length ∧
    chunk_size_of_view (hexRun64 ++ crlfL) = none ∧
    (stla_http_parse envNoChunkCb freshParser
        ("POST / HTTP/1.1\r\nTransfer-Encoding: chunked\r\n\r\n".toList ++
          hexRun64 ++ crlfL)).2 =
      [Ev.onHeaders, Ev.onParsingError] := by
  decide

theorem isxdigit_not_isspace {c : Char} (h : isxdigitC c = true) :
    isspaceC c = false := by
  by_contra hs
  have hs' : isspaceC c = true := by
    cases hx : isspaceC c
    · exact absurd hx hs
    · rfl
  simp only [isspaceC, Bool.or_eq_true, decide_eq_true_eq] at hs'
  rcases hs' with ((((rfl | rfl) | rfl) | rfl) | rfl) | rfl <;> exact absurd h (by decide)

theorem isxdigit_ne_dash {c : Char} (h : isxdigitC c = true) : ¬ c = '-' := by
  intro he
  subst he
  exact absurd h (by decide)

theorem isxdigit_ne_plus {c : Char} (h : isxdigitC c = true) : ¬ c = '+' := by
  intro he
  subst he
  exact absurd h (by decide)

/-- C10 amended: the chunk-size parse consults at most the first 63 bytes
of the view (any two views agreeing on their first 63 bytes parse alike);
when the leading hex-digit run has 64 or more digits, the parser uses only
the first 63 of them and parses that prefix as a *decimal* number, firing
`on_parsing_error` exactly when the line's first digit is not a decimal
digit. -/
theorem c10_63_digit_limit :
    (∀ d d' : List Char, d.take 63 = d'.take 63 →
      chunk_size_of_view d = chunk_size_of_view d') ∧
    (∀ (d : List Char) (c : Char), d.head? = some c →
      64 ≤ (d.takeWhile isxdigitC).length →
      chunk_size_of_view d = sscanf_u64 ((d.take 63).takeWhile isxdigitC) ∧
      (chunk_size_of_view d = none ↔ isdigitC c = false)) := by
  constructor
  · intro d d' hdd
    unfold chunk_size_of_view
    rw [hdd]
  · intro d c hc h64
    refine ⟨rfl, ?_⟩
    rcases d with _ | ⟨c0, t⟩
    · simp at hc
    · simp only [List.head?_cons, Option.some.injEq] at hc
      subst hc
      have hx : isxdigitC c0 = true := by
        cases hx : isxdigitC c0
        · rw [List.takeWhile_cons, hx] at h64
          simp at h64
        · rfl
      have htake : (c0 :: t).take 63 = c0 :: t.take 62 := by
        rfl
      rw [chunk_size_of_view, htake, List.takeWhile_cons, hx]
      cases hd : isdigitC c0 <;>
        simp [sscanf_u64, stripSign, List.dropWhile_cons, isxdigit_not_isspace hx,
          isxdigit_ne_dash hx, isxdigit_ne_plus hx, hd]

/-! ## Claim C4 -/

/-- C4 counterexample: a parser recycled from the group's free list (after
a successful S1 request) is back in ReadingHeaders with no parse of the new
request performed, yet its `method`, `uri` and `protocol` are all still
non-null — `stla_http_init` and `stla_http_release` never clear them, so
they are not null "before a successful header parse" as claimed. -/
theorem c4_counterexample :
    recycledAfterGET.state = stRH ∧
    recycledAfterGET.pending = some (Pull.untilStr crlf2L) ∧
    recycledAfterGET.method = some "GET".toList ∧
    recycledAfterGET.uri = some "/hi".toList ∧
    recycledAfterGET.protocol = some "HTTP/1.1".toList := by
  decide

/-- C4 amended: when ReadingHeaders completes successfully all three of
`method`, `uri`, `protocol` are non-null (in both continuations of the
headers section); but neither `stla_http_init` nor `stla_http_release`
resets these fields, so before the first successful parse they hold the
malloc'ed parser's indeterminate initial values, and on a recycled parser
the previous request's non-null (dangling) values. -/
theorem c4_fields_nonnull (env : Env) (s : S) (view : List Char)
    (h : s.state &&& stRH ≠ 0)
    (hok : (parse_request_and_headers env.stray s.protocol s.headers view).2.2 = true) :
    (∀ s' evs, on_data_step env s view = Sum.inl (s', evs) →
      s'.method.isSome ∧ s'.uri.isSome ∧ s'.protocol.isSome) ∧
    (∀ s' v' evs, on_data_step env s view = Sum.inr (s', v', evs) →
      s'.method.isSome ∧ s'.uri.isSome ∧ s'.protocol.isSome) ∧
    (stla_http_init (stla_http_release s)).method = s.method ∧
    (stla_http_init (stla_http_release s)).uri = s.uri ∧
    (stla_http_init (stla_http_release s)).protocol = s.protocol := by
  have hprS := parse_ok_protocol_isSome hok
  have key : ∀ s' : S,
      (∃ evs, on_data_step env s view = Sum.inl (s', evs)) ∨
      (∃ v' evs, on_data_step env s view = Sum.inr (s', v', evs)) →
      s'.method.isSome ∧ s'.uri.isSome ∧ s'.protocol.isSome := by
    intro s' hcase
    by_cases hn0 : stla_uint64_t (get_header_param
        (parse_request_and_headers env.stray s.protocol s.headers view).2.1
        "Content-Length".toList) 0 = 0
    · by_cases hch : ((get_header_param
          (parse_request_and_headers env.stray s.protocol s.headers view).2.1
          "Transfer-Encoding".toList).map isChunkedTE).getD false = true
      · rcases htp : tryPull s.unread (Pull.untilStr crlfL) with _ | ⟨v, rest⟩
        · rw [on_data_step_RH_chunked_pend h rfl hok hn0 hch htp] at hcase
          rcases hcase with ⟨evs, heq⟩ | ⟨v', evs, heq⟩
          · cases heq
            exact ⟨rfl, rfl, hprS⟩
          · cases heq
        · rw [on_data_step_RH_chunked_sync h rfl hok hn0 hch htp] at hcase
          rcases hcase with ⟨evs, heq⟩ | ⟨v', evs, heq⟩
          · cases heq
          · cases heq
            exact ⟨rfl, rfl, hprS⟩
      · rw [on_data_step_RH_nobody h rfl hok hn0 (Bool.not_eq_true _ ▸ hch)] at hcase
        rcases hcase with ⟨evs, heq⟩ | ⟨v', evs, heq⟩
        · cases heq
          exact ⟨rfl, rfl, hprS⟩
        · cases heq
    · rcases htp : tryPull s.unread (Pull.bytes (stla_uint64_t (get_header_param
          (parse_request_and_headers env.stray s.protocol s.headers view).2.1
          "Content-Length".toList) 0)) with _ | ⟨v, rest⟩
      · rw [on_data_step_RH_cl_pend h rfl hok rfl hn0 htp] at hcase
        rcases hcase with ⟨evs, heq⟩ | ⟨v', evs, heq⟩
        · cases heq
          exact ⟨rfl, rfl, hprS⟩
        · cases heq
      · rw [on_data_step_RH_cl_sync h rfl hok rfl hn0 htp] at hcase
        rcases hcase with ⟨evs, heq⟩ | ⟨v', evs, heq⟩
        · cases heq
        · cases heq
          exact ⟨rfl, rfl, hprS⟩
  refine ⟨?_, ?_, rfl, rfl, rfl⟩
  · intro s' evs heq
    exact key s' (Or.inl ⟨evs, heq⟩)
  · intro s' v' evs heq
    exact key s' (Or.inr ⟨v', evs, heq⟩)

theorem c4_fields_nonnull_witness :
    ((∀ s' evs,
        on_data_step envNoChunkCb freshParser "GET /hi HTTP/1.1\r\nHost: x".toList
          = Sum.inl (s', evs) →
        s'.method.isSome ∧ s'.uri.isSome ∧ s'.protocol.isSome) ∧
      (∀ s' v' evs,
        on_data_step envNoChunkCb freshParser "GET /hi HTTP/1.1\r\nHost: x".toList
          = Sum.inr (s', v', evs) →
        s'.method.isSome ∧ s'.uri.isSome ∧ s'.protocol.isSome) ∧
      (stla_http_init (stla_http_release freshParser)).method = freshParser.method ∧
      (stla_http_init (stla_http_release freshParser)).uri = freshParser.uri ∧
      (stla_http_init (stla_http_release freshParser)).protocol = freshParser.protocol) :=
  c4_fields_nonnull envNoChunkCb freshParser "GET /hi HTTP/1.1\r\nHost: x".toList
    (by decide) (by decide)

/-! ## Claim C6 -/

/-- C6 counterexample: a signed `Content-Length` value is *not* treated as
non-numeric-reads-as-0 (no body): the `%zu` conversion accepts an optional
sign with `strtoull` semantics, so `Content-Length: -5` reads as
`2^64 - 5`; the parser fires `on_headers` and arms a body read of
`2^64 - 5` bytes instead of ending the request with `on_request_end(null,
0)`. -/
theorem c6_counterexample :
    stla_uint64_t (some "-5".toList) 0 = 2 ^ 64 - 5 ∧
    (stla_http_parse envNoChunkCb freshParser
        "POST / HTTP/1.1\r\nContent-Length: -5\r\n\r\n".toList).2 =
      [Ev.onHeaders] ∧
    (stla_http_parse envNoChunkCb freshParser
        "POST / HTTP/1.1\r\nContent-Length: -5\r\n\r\n".toList).1.pending =
      some (Pull.bytes (2 ^ 64 - 5)) := by
  decide

/-- C6 amended: the body dispatch after a successful header parse.  (a) With
the `Content-Length` value reading as `n ≠ 0` and `n` bytes already
buffered, `on_headers` fires, exactly `n` following bytes are consumed and
delivered to `on_request_end`, and the parser reaches ReadComplete.  (b)
With fewer than `n` bytes buffered, `on_headers` fires and a pull for
exactly `n` bytes is armed (state ReadingWholeBody); (c) when that pull is
satisfied with a view `v`, `on_request_end(v, |v|)` fires and the parser
reaches ReadComplete.  (d) A `Content-Length` value with no digit after the
optional whitespace and sign reads as 0.  (e) With no positive
`Content-Length` and `Transfer-Encoding` not equal to `"chunked"`
case-insensitively, `on_request_end(null, 0)` fires immediately and the
parser reaches ReadComplete.  (f) But a negatively signed value with digits
is accepted by the `%zu` conversion and converts with `strtoull` semantics
to its negation modulo 2^64 — it is not "non-numeric" and does not read as
0 (see `c6_counterexample`). -/
theorem c6_body_dispatch (env : Env) (s : S) (view : List Char) (fuel : Nat)
    (h : s.state = stRH)
    (hok : (parse_request_and_headers env.stray s.protocol s.headers view).2.2 = true) :
    (∀ n, stla_uint64_t
        (get_header_param (parse_request_and_headers env.stray s.protocol s.headers view).2.1
          "Content-Length".toList) 0 = n →
      n ≠ 0 →
      (n ≤ s.unread.length →
        ∃ s', on_data env (fuel + 2) s view =
            (s', [Ev.onHeaders, Ev.onRequestEnd (some (s.unread.take n)) n]) ∧
          s'.state &&& stRC ≠ 0 ∧ s'.unread = s.unread.drop n ∧
          s'.post_data = some (s.unread.take n) ∧ s'.post_size = n) ∧
      (s.unread.length < n →
        ∃ s', on_data env (fuel + 1) s view = (s', [Ev.onHeaders]) ∧
          s'.state = stWB ∧ s'.pending = some (Pull.bytes n))) ∧
    (stla_uint64_t
        (get_header_param (parse_request_and_headers env.stray s.protocol s.headers view).2.1
          "Content-Length".toList) 0 = 0 →
      ((get_header_param (parse_request_and_headers env.stray s.protocol s.headers view).2.1
          "Transfer-Encoding".toList).map isChunkedTE).getD false = false →
      ∃ s', on_data env (fuel + 1) s view =
          (s', [Ev.onHeaders, Ev.onRequestEnd none 0]) ∧
        s'.state &&& stRC ≠ 0) ∧
    (∀ (sw : S) (v : List Char), sw.state = stWB →
      on_data env (fuel + 1) sw v =
        ({ sw with post_data := some v, post_size := v.length,
                   state := sw.state ^^^ (stWB ||| stRC) },
         [Ev.onRequestEnd (some v) v.length])) ∧
    (∀ v : List Char, (stripSign (v.dropWhile isspaceC)).2.takeWhile isdigitC = [] →
      stla_uint64_t (some v) 0 = 0) ∧
    (∀ ds : List Char, (ds.takeWhile isdigitC).isEmpty = false →
      stla_uint64_t (some ('-' :: ds)) 0 =
        (2 ^ 64 - decVal (ds.takeWhile isdigitC) % 2 ^ 64) % 2 ^ 64) := by
  have hbit : s.state &&& stRH ≠ 0 := by rw [h]; decide
  set pr := parse_request_and_headers env.stray s.protocol s.headers view with hPR
  refine ⟨?_, ?_, ?_, ?_, ?_⟩
  · intro n hn hn0
    constructor
    · intro hle
      have htp : tryPull s.unread (Pull.bytes n) =
          some (s.unread.take n, s.unread.drop n) := by
        simp [tryPull, hle]
      have e1 := on_data_step_RH_cl_sync hbit hPR.symm hok hn hn0 htp
      have hlen : (s.unread.take n).length = n := by
        rw [List.length_take]
        omega
      have e2 := @on_data_step_WB env
        { s with method := some pr.1.1, uri := some pr.1.2.1,
                 protocol := pr.1.2.2, headers := pr.2.1,
                 state := (s.state ^^^ stRH) ||| stWB,
                 unread := s.unread.drop n, pending := none }
        (s.unread.take n)
        (by simp only [h]; decide) (by simp only [h]; decide)
      rw [hlen] at e2
      have hrun : on_data env (fuel + 2) s view =
          ({ s with method := some pr.1.1, uri := some pr.1.2.1,
                    protocol := pr.1.2.2, headers := pr.2.1,
                    state := ((s.state ^^^ stRH) ||| stWB) ^^^ (stWB ||| stRC),
                    unread := s.unread.drop n, pending := none,
                    post_data := some (s.unread.take n), post_size := n },
           [Ev.onHeaders, Ev.onRequestEnd (some (s.unread.take n)) n]) := by
        show on_data env (fuel + 1 + 1) s view = _
        rw [on_data_succ_inr e1, on_data_succ_inl e2]
        simp
      exact ⟨_, hrun, by simp only [h]; decide, rfl, rfl, rfl⟩
    · intro hgt
      have htp : tryPull s.unread (Pull.bytes n) = none := by
        simp only [tryPull, ite_eq_right_iff]
        omega
      have e1 := on_data_step_RH_cl_pend hbit hPR.symm hok hn hn0 htp
      have hrun : on_data env (fuel + 1) s view =
          ({ s with method := some pr.1.1, uri := some pr.1.2.1,
                    protocol := pr.1.2.2, headers := pr.2.1,
                    state := (s.state ^^^ stRH) ||| stWB,
                    pending := some (Pull.bytes n) },
           [Ev.onHeaders]) := on_data_succ_inl e1
      exact ⟨_, hrun, by simp only [h]; decide, rfl⟩
  · intro hcl hch
    have e1 := on_data_step_RH_nobody hbit hPR.symm hok hcl hch
    have hrun : on_data env (fuel + 1) s view =
        ({ s with method := some pr.1.1, uri := some pr.1.2.1,
                  protocol := pr.1.2.2, headers := pr.2.1,
                  state := (s.state ^^^ stRH) ||| stRC },
         [Ev.onHeaders, Ev.onRequestEnd none 0]) := on_data_succ_inl e1
    exact ⟨_, hrun, by simp only [h]; decide⟩
  · intro sw v hw
    exact on_data_succ_inl
      (on_data_step_WB (by rw [hw]; decide) (by rw [hw]; decide))
  · intro v hv
    simp [stla_uint64_t, sscanf_u64, hv]
  · intro ds hne
    simp [stla_uint64_t, sscanf_u64, stripSign, isspaceC, hne]

theorem c6_body_dispatch_witness :
    ((stla_http_parse envNoChunkCb freshParser
        "POST /a HTTP/1.0\r\nContent-Length: 5\r\n\r\nhello".toList).2 =
      [Ev.onHeaders, Ev.onRequestEnd (some "hello".toList) 5]) ∧
    (∃ s', on_data envNoChunkCb 2
        { freshParser with unread := "hello".toList, pending := none }
        "POST /a HTTP/1.0\r\nContent-Length: 5".toList =
          (s', [Ev.onHeaders, Ev.onRequestEnd (some "hello".toList) 5]) ∧
      s'.state &&& stRC ≠ 0 ∧ s'.unread = [] ∧
      s'.post_data = some "hello".toList ∧ s'.post_size = 5) ∧
    stla_uint64_t (some "abc".toList) 0 = 0 ∧
    stla_uint64_t (some ('-' :: "5".toList)) 0 =
      (2 ^ 64 - decVal ("5".toList.takeWhile isdigitC) % 2 ^ 64) % 2 ^ 64 := by
  have hmain := c6_body_dispatch envNoChunkCb
    { freshParser with unread := "hello".toList, pending := none }
    "POST /a HTTP/1.0\r\nContent-Length: 5".toList 0 (by decide) (by decide)
  refine ⟨by decide, ?_, hmain.2.2.2.1 "abc".toList (by decide),
    hmain.2.2.2.2 "5".toList (by decide)⟩
  have h5 := (hmain.1 5 (by decide) (by decide)).1 (by decide)
  simpa using h5

/-- Interlude: the full S3 scenario checked end to end (not itself a claim
theorem; kept as a sanity check of the embedding). -/
theorem s3_scenario_check :
    (stla_http_parse envNoChunkCb freshParser
        "POST /a HTTP/1.0\r\nContent-Length: 5\r\n\r\nhello".toList).2 =
      [Ev.onHeaders, Ev.onRequestEnd (some "hello".toList) 5] := by
  decide

/-! ## Claim C1 -/

/-- C1: chunking insensitivity.  For any request bytes `R` that form a
complete request — a single `stla_http_parse(R)` on a freshly initialized
parser reaches ReadComplete with an empty unread buffer — and any partition
of `R` into non-empty chunks, feeding the chunks in order through
successive `stla_http_parse` calls yields the same final parser state and
the same callback sequence (hence the same body bytes delivered in the same
order) as the single call.  `base` carries the fresh parser's indeterminate
malloc contents; both runs share it. -/
theorem c1_chunking_insensitivity (env : Env) (base : S) (R : List Char)
    (chunks : List (List Char))
    (hjoin : chunks.flatten = R)
    (hne : ∀ c ∈ chunks, c ≠ [])
    (hterm : (stla_http_parse env (stla_http_init base) R).1.state &&& stRC ≠ 0)
    (hdone : (stla_http_parse env (stla_http_init base) R).1.unread = []) :
    feedAll env (stla_http_init base) chunks =
      stla_http_parse env (stla_http_init base) R := by
  subst hjoin
  have hs0state : (stla_http_init base).state = stRH := rfl
  have hs0rc : (stla_http_init base).state &&& stRC = 0 := by rw [hs0state]; decide
  have hg0 : ¬ (stla_http_init base).state &&& stRC ≠ 0 := by simpa using hs0rc
  have hpfx : ∀ i, i < chunks.length →
      (stla_http_parse env (stla_http_init base)
        ((chunks.take i).flatten)).1.state &&& stRC = 0 := by
    intro i hi
    by_contra hT0
    have hT : (stla_http_parse env (stla_http_init base)
        ((chunks.take i).flatten)).1.state &&& stRC ≠ 0 := hT0
    have hrest : (chunks.drop i).flatten ≠ [] := by
      rcases hd : chunks.drop i with _ | ⟨c, cs⟩
      · have : chunks.length ≤ i := List.drop_eq_nil_iff.mp hd
        omega
      · have hcmem : c ∈ chunks := (List.drop_suffix i chunks).subset (by simp [hd])
        intro hnil
        simp only [List.flatten_cons, List.append_eq_nil] at hnil
        exact hne c hcmem hnil.1
    have e0 : stla_http_parse env (stla_http_init base) ((chunks.take i).flatten) =
        pump env { stla_http_init base with
          unread := (stla_http_init base).unread ++ (chunks.take i).flatten } := by
      simp only [stla_http_parse, if_neg hg0]
    have hTpend : (stla_http_parse env (stla_http_init base)
        ((chunks.take i).flatten)).1.pending = none := by
      rw [e0] at hT ⊢
      exact pump_terminal_pending env _ hs0rc hT
    have hdecomp : chunks.flatten = (chunks.take i).flatten ++ (chunks.drop i).flatten := by
      rw [← List.flatten_append, List.take_append_drop]
    have hfull : stla_http_parse env (stla_http_init base) chunks.flatten =
        pump env { stla_http_init base with
          unread := ((stla_http_init base).unread ++ (chunks.take i).flatten)
            ++ (chunks.drop i).flatten } := by
      simp only [stla_http_parse, if_neg hg0]
      rw [hdecomp, ← List.append_assoc]
    have hsplit :
        pump env { stla_http_init base with
          unread := ((stla_http_init base).unread ++ (chunks.take i).flatten)
            ++ (chunks.drop i).flatten } =
        ((pump env { (pump env { stla_http_init base with
              unread := (stla_http_init base).unread ++ (chunks.take i).flatten }).1 with
            unread := (pump env { stla_http_init base with
              unread := (stla_http_init base).unread ++ (chunks.take i).flatten }).1.unread
              ++ (chunks.drop i).flatten }).1,
         (pump env { stla_http_init base with
            unread := (stla_http_init base).unread ++ (chunks.take i).flatten }).2 ++
          (pump env { (pump env { stla_http_init base with
              unread := (stla_http_init base).unread ++ (chunks.take i).flatten }).1 with
            unread := (pump env { stla_http_init base with
              unread := (stla_http_init base).unread ++ (chunks.take i).flatten }).1.unread
              ++ (chunks.drop i).flatten }).2) :=
      pump_extend env { stla_http_init base with
        unread := (stla_http_init base).unread ++ (chunks.take i).flatten } _
    rw [hfull, hsplit, ← e0] at hdone
    have hnop : pump env { (stla_http_parse env (stla_http_init base)
          ((chunks.take i).flatten)).1 with
        unread := (stla_http_parse env (stla_http_init base)
          ((chunks.take i).flatten)).1.unread ++ (chunks.drop i).flatten } =
        ({ (stla_http_parse env (stla_http_init base) ((chunks.take i).flatten)).1 with
          unread := (stla_http_parse env (stla_http_init base)
            ((chunks.take i).flatten)).1.unread ++ (chunks.drop i).flatten }, []) := by
      simp [pump, hTpend]
    rw [hnop] at hdone
    simp only [List.append_eq_nil] at hdone
    exact hrest hdone.2
  have hunroll : ∀ i, i ≤ chunks.length →
      feedAll env (stla_http_init base) (chunks.take i) =
        stla_http_parse env (stla_http_init base) ((chunks.take i).flatten) := by
    intro i
    induction i with
    | zero =>
      intro _
      rw [List.take_zero, List.flatten_nil]
      simp only [stla_http_parse, if_neg hg0]
      rfl
    | succ i ih =>
      intro hle
      have hi : i < chunks.length := by omega
      have htake : chunks.take (i + 1) = chunks.take i ++ [chunks.get ⟨i, hi⟩] := by
        rw [List.take_succ, List.getElem?_eq_getElem hi]
        simp
      have hjoin2 : (chunks.take (i + 1)).flatten =
          (chunks.take i).flatten ++ chunks.get ⟨i, hi⟩ := by
        rw [htake, List.flatten_append]
        simp
      rw [hjoin2, htake, feedAll_append, ih (by omega)]
      rw [stla_http_parse_append env _ _ _ hs0rc (hpfx i hi)]
      simp [feedAll]
  have hfin := hunroll chunks.length le_rfl
  rwa [List.take_length] at hfin

theorem c1_witness :
    (["GET /hi HTTP/1.1\r\nHo".toList, "st: x\r\n\r\n".toList].flatten = reqGET) ∧
    feedAll envNoChunkCb freshParser
        ["GET /hi HTTP/1.1\r\nHo".toList, "st: x\r\n\r\n".toList] =
      stla_http_parse envNoChunkCb freshParser reqGET :=
  ⟨by decide,
   c1_chunking_insensitivity envNoChunkCb baseZero reqGET
     ["GET /hi HTTP/1.1\r\nHo".toList, "st: x\r\n\r\n".toList]
     (by decide) (by decide) (by decide) (by decide)⟩

theorem c10_63_digit_limit_witness :
    (chunk_size_of_view (hexRun64 ++ crlfL) =
        chunk_size_of_view ((hexRun64 ++ crlfL).take 63) ∧
      (hexRun64 ++ crlfL).head? = some 'a' ∧
      64 ≤ ((hexRun64 ++ crlfL).takeWhile isxdigitC).length ∧
      chunk_size_of_view (hexRun64 ++ crlfL) =
        sscanf_u64 (((hexRun64 ++ crlfL).take 63).takeWhile isxdigitC) ∧
      (chunk_size_of_view (hexRun64 ++ crlfL) = none ↔ isdigitC 'a' = false)) := by
  have h := c10_63_digit_limit
  refine ⟨h.1 (hexRun64 ++ crlfL) ((hexRun64 ++ crlfL).take 63) (by decide), by decide,
    by decide, ?_, ?_⟩
  · exact (h.2 (hexRun64 ++ crlfL) 'a' (by decide) (by decide)).1
  · exact (h.2 (hexRun64 ++ crlfL) 'a' (by decide) (by decide)).2


theorem phRun_append {p q : Phase} {es1 : List Ev} (es2 : List Ev)
    (h : phRun p es1 = some q) :
    phRun p (es1 ++ es2) = phRun q es2 := by
  induction es1 generalizing p with
  | nil =>
    simp only [phRun, Option.some.injEq] at h
    subst h
    rfl
  | cons e es ih =>
    rcases hs : phStep p e with _ | p'
    · simp only [phRun, hs] at h
      cases h
    · rw [List.cons_append]
      simp only [phRun, hs] at h ⊢
      exact ih h

theorem phRun_done_nil {es : List Ev} {q : Phase}
    (h : phRun Phase.done es = some q) : es = [] ∧ q = Phase.done := by
  cases es with
  | nil =>
    simp only [phRun, Option.some.injEq] at h
    exact ⟨rfl, h.symm⟩
  | cons e es =>
    cases e <;> simp [phRun, phStep] at h

theorem phRun_split {p q : Phase} {e : Ev} : ∀ {xs : List Ev} {ys : List Ev},
    phRun p (xs ++ e :: ys) = some q →
    ∃ p1 p2, phRun p xs = some p1 ∧ phStep p1 e = some p2 ∧ phRun p2 ys = some q := by
  intro xs
  induction xs generalizing p with
  | nil =>
    intro ys h
    rw [List.nil_append] at h
    rcases hs : phStep p e with _ | p2
    · simp only [phRun, hs] at h
      cases h
    · simp only [phRun, hs] at h
      exact ⟨p, p2, rfl, hs, h⟩
  | cons x xs ih =>
    intro ys h
    rw [List.cons_append] at h
    rcases hs : phStep p x with _ | p'
    · simp only [phRun, hs] at h
      cases h
    · simp only [phRun, hs] at h
      obtain ⟨p1, p2, h1, h2, h3⟩ := ih h
      exact ⟨p1, p2, by simp only [phRun, hs]; exact h1, h2, h3⟩

theorem phRun_pre_to_mid : ∀ {xs : List Ev},
    phRun Phase.pre xs = some Phase.mid → Ev.onHeaders ∈ xs := by
  intro xs
  induction xs with
  | nil => intro h; cases h
  | cons e es ih =>
    intro h
    cases e with
    | onHeaders => exact List.mem_cons_self _ _
    | onBodyChunk c =>
      simp only [phRun, phStep] at h
      cases h
    | onRequestEnd b n =>
      simp only [phRun, phStep] at h
      cases h
    | onParsingError =>
      simp only [phRun, phStep] at h
      obtain ⟨-, hq⟩ := phRun_done_nil h
      cases hq

theorem phRun_no_terminal : ∀ {xs : List Ev} {p q : Phase},
    phRun p xs = some q → q ≠ Phase.done → countTerminals xs = 0 := by
  intro xs
  induction xs with
  | nil => intro p q _ _; rfl
  | cons e es ih =>
    intro p q h hq
    cases e with
    | onHeaders =>
      rcases hs : phStep p Ev.onHeaders with _ | p'
      · simp only [phRun, hs] at h
        cases h
      · simp only [phRun, hs] at h
        simpa [countTerminals, List.filter] using ih h hq
    | onBodyChunk c =>
      rcases hs : phStep p (Ev.onBodyChunk c) with _ | p'
      · simp only [phRun, hs] at h
        cases h
      · simp only [phRun, hs] at h
        simpa [countTerminals, List.filter] using ih h hq
    | onRequestEnd b n =>
      cases p with
      | pre =>
        simp only [phRun, phStep] at h
        cases h
      | mid =>
        simp only [phRun, phStep] at h
        obtain ⟨-, hqd⟩ := phRun_done_nil h
        exact absurd hqd hq
      | done =>
        simp only [phRun, phStep] at h
        cases h
    | onParsingError =>
      cases p with
      | pre =>
        simp only [phRun, phStep] at h
        obtain ⟨-, hqd⟩ := phRun_done_nil h
        exact absurd hqd hq
      | mid =>
        simp only [phRun, phStep] at h
        obtain ⟨-, hqd⟩ := phRun_done_nil h
        exact absurd hqd hq
      | done =>
        simp only [phRun, phStep] at h
        cases h

theorem phRun_terminals_le_one : ∀ {xs : List Ev} {p q : Phase},
    phRun p xs = some q → countTerminals xs ≤ 1 := by
  intro xs
  induction xs with
  | nil => intro p q _; exact Nat.zero_le 1
  | cons e es ih =>
    intro p q h
    cases e with
    | onHeaders =>
      rcases hs : phStep p Ev.onHeaders with _ | p'
      · simp only [phRun, hs] at h
        cases h
      · simp only [phRun, hs] at h
        simpa [countTerminals, List.filter] using ih h
    | onBodyChunk c =>
      rcases hs : phStep p (Ev.onBodyChunk c) with _ | p'
      · simp only [phRun, hs] at h
        cases h
      · simp only [phRun, hs] at h
        simpa [countTerminals, List.filter] using ih h
    | onRequestEnd b n =>
      cases p with
      | pre =>
        simp only [phRun, phStep] at h
        cases h
      | mid =>
        simp only [phRun, phStep] at h
        obtain ⟨hes, -⟩ := phRun_done_nil h
        subst hes
        simp [countTerminals, List.filter]
      | done =>
        simp only [phRun, phStep] at h
        cases h
    | onParsingError =>
      cases p with
      | pre =>
        simp only [phRun, phStep] at h
        obtain ⟨hes, -⟩ := phRun_done_nil h
        subst hes
        simp [countTerminals, List.filter]
      | mid =>
        simp only [phRun, phStep] at h
        obtain ⟨hes, -⟩ := phRun_done_nil h
        subst hes
        simp [countTerminals, List.filter]
      | done =>
        simp only [phRun, phStep] at h
        cases h

/-- Packaging lemma for the branch analysis: once one control path's result
is characterized and its phase transition checked, both directions of the
per-round phase property follow. -/
theorem phase_aux_inl {env : Env} {s : S} {view : List Char} {X : S} {E : List Ev}
    (hchar : on_data_step env s view = Sum.inl (X, E))
    (hgX : goodState X.state = true)
    (hph : phRun (phaseOf s.state) E = some (phaseOf X.state)) :
    ∀ r es, (on_data_step env s view = Sum.inl (r, es) ∨
        ∃ v, on_data_step env s view = Sum.inr (r, v, es)) →
      goodState r.state = true ∧
        phRun (phaseOf s.state) es = some (phaseOf r.state) := by
  intro r es hre
  rcases hre with heq | ⟨v, heq⟩
  · rw [hchar] at heq
    injection heq with h
    injection h with h1 h2
    subst h1
    subst h2
    exact ⟨hgX, hph⟩
  · rw [hchar] at heq
    exact Sum.noConfusion heq

/-- Companion of `phase_aux_inl` for the synchronously-continuing paths. -/
theorem phase_aux_inr {env : Env} {s : S} {view : List Char} {X : S}
    {V : List Char} {E : List Ev}
    (hchar : on_data_step env s view = Sum.inr (X, V, E))
    (hgX : goodState X.state = true)
    (hph : phRun (phaseOf s.state) E = some (phaseOf X.state)) :
    ∀ r es, (on_data_step env s view = Sum.inl (r, es) ∨
        ∃ v, on_data_step env s view = Sum.inr (r, v, es)) →
      goodState r.state = true ∧
        phRun (phaseOf s.state) es = some (phaseOf r.state) := by
  intro r es hre
  rcases hre with heq | ⟨v, heq⟩
  · rw [hchar] at heq
    exact Sum.noConfusion heq
  · rw [hchar] at heq
    injection heq with h
    injection h with h1 h
    injection h with h2 h3
    subst h1
    subst h3
    exact ⟨hgX, hph⟩

/-- Each round of `on_data` keeps the state word well-formed and advances
the callback-ordering automaton from the phase of the entry state to the
phase of the exit state, emitting only allowed callbacks. -/
theorem on_data_step_phase (env : Env) (s : S) (view : List Char)
    (hg : goodState s.state = true) :
    ∀ r es, (on_data_step env s view = Sum.inl (r, es) ∨
        ∃ v, on_data_step env s view = Sum.inr (r, v, es)) →
      goodState r.state = true ∧
        phRun (phaseOf s.state) es = some (phaseOf r.state) := by
  have hg' : s.state = stRH ∨ s.state = stWB ∨ s.state = stCS ∨
      s.state = stCD ∨ s.state = stRF ∨ s.state = stRC := by
    simpa [goodState, or_assoc] using hg
  rcases hg' with hst | hst | hst | hst | hst | hst
  · -- ReadingHeaders
    have h : s.state &&& stRH ≠ 0 := by rw [hst]; decide
    rcases hb : (parse_request_and_headers env.stray s.protocol s.headers view).2.2 with _ | _
    · exact phase_aux_inl (on_data_step_RH_fail h rfl hb)
        (by simp only [hst]; decide) (by simp only [hst]; decide)
    · rcases hcl0 : stla_uint64_t (get_header_param
          (parse_request_and_headers env.stray s.protocol s.headers view).2.1
          "Content-Length".toList) 0 with _ | m
      · rcases hch : ((get_header_param
            (parse_request_and_headers env.stray s.protocol s.headers view).2.1
            "Transfer-Encoding".toList).map isChunkedTE).getD false with _ | _
        · exact phase_aux_inl (on_data_step_RH_nobody h rfl hb hcl0 hch)
            (by simp only [hst]; decide) (by simp only [hst]; decide)
        · rcases htp : tryPull s.unread (Pull.untilStr crlfL) with _ | ⟨v, rest⟩
          · exact phase_aux_inl (on_data_step_RH_chunked_pend h rfl hb hcl0 hch htp)
              (by simp only [hst]; decide) (by simp only [hst]; decide)
          · exact phase_aux_inr (on_data_step_RH_chunked_sync h rfl hb hcl0 hch htp)
              (by simp only [hst]; decide) (by simp only [hst]; decide)
      · rcases htp : tryPull s.unread (Pull.bytes (m + 1)) with _ | ⟨v, rest⟩
        · exact phase_aux_inl (on_data_step_RH_cl_pend h rfl hb hcl0 (by omega) htp)
            (by simp only [hst]; decide) (by simp only [hst]; decide)
        · exact phase_aux_inr (on_data_step_RH_cl_sync h rfl hb hcl0 (by omega) htp)
            (by simp only [hst]; decide) (by simp only [hst]; decide)
  · -- ReadingWholeBody
    have h1 : s.state &&& stRH = 0 := by rw [hst]; decide
    have h2 : s.state &&& stWB ≠ 0 := by rw [hst]; decide
    refine phase_aux_inl (on_data_step_WB h1 h2) (by simp only [hst]; decide) ?_
    simp only [hst]
    rw [show phaseOf stWB = Phase.mid from by decide]
    simp only [phRun, phStep]
    decide
  · -- ReadingChunkSize
    have h1 : s.state &&& stRH = 0 := by rw [hst]; decide
    have h2 : s.state &&& stWB = 0 := by rw [hst]; decide
    have h3 : s.state &&& stCS ≠ 0 := by rw [hst]; decide
    rcases hcs : chunk_size_of_view view with _ | n
    · exact phase_aux_inl (on_data_step_CS_err h1 h2 h3 hcs)
        (by simp only [hst]; decide) (by simp only [hst]; decide)
    · by_cases hn : 0 < n
      · rcases htp : tryPull s.unread (Pull.bytes (n + 2)) with _ | ⟨v, rest⟩
        · exact phase_aux_inl (on_data_step_CS_pos_pend h1 h2 h3 hcs hn htp)
            (by simp only [hst]; decide) (by simp only [hst]; decide)
        · exact phase_aux_inr (on_data_step_CS_pos_sync h1 h2 h3 hcs hn htp)
            (by simp only [hst]; decide) (by simp only [hst]; decide)
      · rcases htp : tryPull s.unread (Pull.untilStr crlfL) with _ | ⟨v, rest⟩
        · exact phase_aux_inl (on_data_step_CS_zero_pend h1 h2 h3 hcs hn htp)
            (by simp only [hst]; decide) (by simp only [hst]; decide)
        · exact phase_aux_inr (on_data_step_CS_zero_sync h1 h2 h3 hcs hn htp)
            (by simp only [hst]; decide) (by simp only [hst]; decide)
  · -- ReadingChunkData
    have h1 : s.state &&& stRH = 0 := by rw [hst]; decide
    have h2 : s.state &&& stWB = 0 := by rw [hst]; decide
    have h3 : s.state &&& stCS = 0 := by rw [hst]; decide
    have h4 : s.state &&& stCD ≠ 0 := by rw [hst]; decide
    rcases hcb : env.hasOnBodyChunk with _ | _
    · rcases htp : tryPull s.unread (Pull.untilStr crlfL) with _ | ⟨v, rest⟩
      · exact phase_aux_inl (on_data_step_CD_cache_pend h1 h2 h3 h4 hcb htp)
          (by simp only [hst]; decide) (by simp only [hst]; decide)
      · exact phase_aux_inr (on_data_step_CD_cache_sync h1 h2 h3 h4 hcb htp)
          (by simp only [hst]; decide) (by simp only [hst]; decide)
    · rcases htp : tryPull s.unread (Pull.untilStr crlfL) with _ | ⟨v, rest⟩
      · refine phase_aux_inl (on_data_step_CD_cb_pend h1 h2 h3 h4 hcb htp)
          (by simp only [hst]; decide) ?_
        simp only [hst]
        rw [show phaseOf stCD = Phase.mid from by decide]
        simp only [phRun, phStep]
        decide
      · refine phase_aux_inr (on_data_step_CD_cb_sync h1 h2 h3 h4 hcb htp)
          (by simp only [hst]; decide) ?_
        simp only [hst]
        rw [show phaseOf stCD = Phase.mid from by decide]
        simp only [phRun, phStep]
        decide
  · -- ReadingFooters
    have h1 : s.state &&& stRH = 0 := by rw [hst]; decide
    have h2 : s.state &&& stWB = 0 := by rw [hst]; decide
    have h3 : s.state &&& stCS = 0 := by rw [hst]; decide
    have h4 : s.state &&& stCD = 0 := by rw [hst]; decide
    have h5 : s.state &&& stRF ≠ 0 := by rw [hst]; decide
    by_cases hv : 0 < view.length
    · rcases htp : tryPull s.unread (Pull.untilStr crlfL) with _ | ⟨v, rest⟩
      · exact phase_aux_inl (on_data_step_RF_pend h1 h2 h3 h4 h5 hv htp)
          (by simp only [hst]; decide) (by simp only [hst]; decide)
      · exact phase_aux_inr (on_data_step_RF_sync h1 h2 h3 h4 h5 hv htp)
          (by simp only [hst]; decide) (by simp only [hst]; decide)
    · refine phase_aux_inl (on_data_step_RF_done h1 h2 h3 h4 h5 hv)
        (by simp only [hst]; decide) ?_
      simp only [hst]
      rw [show phaseOf stRF = Phase.mid from by decide]
      simp only [phRun, phStep]
      decide
  · -- ReadComplete: no active section, no events
    have h1 : s.state &&& stRH = 0 := by rw [hst]; decide
    have h2 : s.state &&& stWB = 0 := by rw [hst]; decide
    have h3 : s.state &&& stCS = 0 := by rw [hst]; decide
    have h4 : s.state &&& stCD = 0 := by rw [hst]; decide
    have h5 : s.state &&& stRF = 0 := by rw [hst]; decide
    exact phase_aux_inl (on_data_step_none h1 h2 h3 h4 h5) hg rfl

/-- `on_data` keeps the state word well-formed and advances the
callback-ordering automaton from the entry phase to the exit phase. -/
theorem on_data_phase (env : Env) : ∀ (fuel : Nat) (s : S) (view : List Char),
    goodState s.state = true →
    goodState (on_data env fuel s view).1.state = true ∧
    phRun (phaseOf s.state) (on_data env fuel s view).2 =
      some (phaseOf (on_data env fuel s view).1.state) := by
  intro fuel
  induction fuel with
  | zero => intro s view hg; exact ⟨hg, rfl⟩
  | succ f ih =>
    intro s view hg
    rcases hstep : on_data_step env s view with ⟨r, es⟩ | ⟨r, v, es⟩
    · rw [on_data_succ_inl hstep]
      exact on_data_step_phase env s view hg r es (Or.inl hstep)
    · rw [on_data_succ_inr hstep]
      obtain ⟨hgr, hphr⟩ :=
        on_data_step_phase env s view hg r es (Or.inr ⟨v, hstep⟩)
      obtain ⟨hgf, hphf⟩ := ih r v hgr
      exact ⟨hgf, by rw [phRun_append _ hphr]; exact hphf⟩

/-- `pump` keeps the state word well-formed and advances the
callback-ordering automaton accordingly. -/
theorem pump_phase (env : Env) (s : S) (hg : goodState s.state = true) :
    goodState (pump env s).1.state = true ∧
    phRun (phaseOf s.state) (pump env s).2 = some (phaseOf (pump env s).1.state) := by
  rcases hq : s.pending with _ | q
  · simp only [pump, hq]
    exact ⟨hg, rfl⟩
  · rcases htp : tryPull s.unread q with _ | ⟨v, rest⟩
    · simp only [pump, hq, htp]
      exact ⟨hg, rfl⟩
    · simp only [pump, hq, htp]
      exact on_data_phase env (s.unread.length + 1)
        { s with unread := rest, pending := none } v hg

/-- `stla_http_parse` on a not-yet-complete parser keeps the state word
well-formed and advances the callback-ordering automaton accordingly. -/
theorem stla_http_parse_phase (env : Env) (s : S) (data : List Char)
    (hg : goodState s.state = true) (hrc : s.state &&& stRC = 0) :
    goodState (stla_http_parse env s data).1.state = true ∧
    phRun (phaseOf s.state) (stla_http_parse env s data).2 =
      some (phaseOf (stla_http_parse env s data).1.state) := by
  have hg' : ¬ s.state &&& stRC ≠ 0 := by simpa using hrc
  simp only [stla_http_parse, if_neg hg']
  exact pump_phase env { s with unread := s.unread ++ data } hg

/-- Feeding a chunk sequence in which no chunk follows a terminal callback
keeps the state word well-formed and advances the callback-ordering
automaton from the entry phase to the exit phase. -/
theorem feedAll_phase (env : Env) : ∀ (chunks : List (List Char)) (s : S),
    goodState s.state = true →
    (∀ i, i < chunks.length →
      (feedAll env s (chunks.take i)).1.state &&& stRC = 0) →
    goodState (feedAll env s chunks).1.state = true ∧
    phRun (phaseOf s.state) (feedAll env s chunks).2 =
      some (phaseOf (feedAll env s chunks).1.state) := by
  intro chunks
  induction chunks with
  | nil => intro s hg _; exact ⟨hg, rfl⟩
  | cons c cs ih =>
    intro s hg hnf
    have hrc : s.state &&& stRC = 0 := by
      have h0 := hnf 0 (by simp)
      simpa [feedAll] using h0
    obtain ⟨hg1, hp1⟩ := stla_http_parse_phase env s c hg hrc
    have hnf' : ∀ i, i < cs.length →
        (feedAll env (stla_http_parse env s c).1 (cs.take i)).1.state &&& stRC = 0 := by
      intro i hi
      have h1 := hnf (i + 1) (by simpa using Nat.succ_lt_succ hi)
      simpa [feedAll, List.take_succ_cons] using h1
    obtain ⟨hg2, hp2⟩ := ih (stla_http_parse env s c).1 hg1 hnf'
    refine ⟨by simpa [feedAll] using hg2, ?_⟩
    show phRun (phaseOf s.state)
        ((stla_http_parse env s c).2 ++
          (feedAll env (stla_http_parse env s c).1 cs).2) =
      some (phaseOf (feedAll env (stla_http_parse env s c).1 cs).1.state)
    rw [phRun_append _ hp1]
    exact hp2

/-- C8: between acquisition and release, over any sequence of
`stla_http_parse` feeds in which no bytes are fed after a terminal callback
(every proper prefix of the feeds leaves the parser short of
`read_complete`), the callback sequence satisfies: at most one terminal
callback (`on_request_end` or `on_parsing_error`) fires; every
`on_request_end` is preceded by an `on_headers`; and every `on_body_chunk`
lies after an `on_headers` and before the terminal callback. -/
theorem c8_callback_ordering (env : Env) (base : S) (chunks : List (List Char))
    (hnofeed : ∀ i, i < chunks.length →
      (feedAll env (stla_http_init base) (chunks.take i)).1.state &&& stRC = 0) :
    countTerminals (feedAll env (stla_http_init base) chunks).2 ≤ 1 ∧
    (∀ xs b n ys,
      (feedAll env (stla_http_init base) chunks).2 = xs ++ Ev.onRequestEnd b n :: ys →
      Ev.onHeaders ∈ xs) ∧
    (∀ xs ch ys,
      (feedAll env (stla_http_init base) chunks).2 = xs ++ Ev.onBodyChunk ch :: ys →
      Ev.onHeaders ∈ xs ∧ countTerminals xs = 0) := by
  have hg0 : goodState (stla_http_init base).state = true := by
    show goodState stRH = true
    decide
  obtain ⟨hgf, hpf⟩ := feedAll_phase env chunks (stla_http_init base) hg0 hnofeed
  have hpre : phaseOf (stla_http_init base).state = Phase.pre := by
    show phaseOf stRH = Phase.pre
    decide
  rw [hpre] at hpf
  refine ⟨phRun_terminals_le_one hpf, ?_, ?_⟩
  · intro xs b n ys hsplit
    rw [hsplit] at hpf
    obtain ⟨p1, p2, h1, h2, h3⟩ := phRun_split hpf
    have hp1 : p1 = Phase.mid := by
      cases p1 with
      | pre => simp [phStep] at h2
      | mid => rfl
      | done => simp [phStep] at h2
    rw [hp1] at h1
    exact phRun_pre_to_mid h1
  · intro xs ch ys hsplit
    rw [hsplit] at hpf
    obtain ⟨p1, p2, h1, h2, h3⟩ := phRun_split hpf
    have hp1 : p1 = Phase.mid := by
      cases p1 with
      | pre => simp [phStep] at h2
      | mid => rfl
      | done => simp [phStep] at h2
    rw [hp1] at h1
    exact ⟨phRun_pre_to_mid h1, phRun_no_terminal h1 (by decide)⟩

/-- The original claim's "exactly one terminal callback fires" is false:
feeding the single incomplete chunk `"G"` — after which no further bytes
are fed, and after no terminal callback — produces no terminal callback at
all (the parser is still waiting for the end of the headers). -/
theorem c8_counterexample :
    (∀ i, i < [['G']].length →
      (feedAll envNoChunkCb (stla_http_init baseZero) ([['G']].take i)).1.state &&&
        stRC = 0) ∧
    countTerminals (feedAll envNoChunkCb (stla_http_init baseZero) [['G']]).2 = 0 := by
  decide

theorem c8_witness :
    (∀ i, i < [reqChunked].length →
      (feedAll envChunkCb (stla_http_init baseZero) ([reqChunked].take i)).1.state &&&
        stRC = 0) ∧
    (countTerminals (feedAll envChunkCb (stla_http_init baseZero) [reqChunked]).2 ≤ 1 ∧
     (∀ xs b n ys,
       (feedAll envChunkCb (stla_http_init baseZero) [reqChunked]).2 =
         xs ++ Ev.onRequestEnd b n :: ys →
       Ev.onHeaders ∈ xs) ∧
     (∀ xs ch ys,
       (feedAll envChunkCb (stla_http_init baseZero) [reqChunked]).2 =
         xs ++ Ev.onBodyChunk ch :: ys →
       Ev.onHeaders ∈ xs ∧ countTerminals xs = 0)) :=
  ⟨by decide, c8_callback_ordering envChunkCb baseZero [reqChunked] (by decide)⟩


theorem digit_ne_cr {c : Char} (h : isdigitC c = true) : ¬ c = '\r' := by
  intro he
  subst he
  exact absurd h (by decide)

theorem findSub_crlf_at {x : List Char} : ∀ {a : List Char},
    (∀ c ∈ a, isdigitC c = true) →
    findSub crlfL (a ++ crlfL ++ x) = some a.length := by
  intro a
  induction a with
  | nil =>
    intro _
    show findSub crlfL ('\r' :: '\n' :: x) = some 0
    simp [findSub, crlfL, List.isPrefixOf]
  | cons c t ih =>
    intro ha
    have hc : isdigitC c = true := ha c (List.mem_cons_self _ _)
    have hne : (('\r' : Char) == c) = false :=
      beq_eq_false_iff_ne.mpr fun he => digit_ne_cr hc he.symm
    have hpre : crlfL.isPrefixOf (c :: (t ++ crlfL ++ x)) = false := by
      show (['\r', '\n'] : List Char).isPrefixOf _ = false
      simp [List.isPrefixOf, hne]
    show (if crlfL.isPrefixOf (c :: (t ++ crlfL ++ x)) = true then some 0
      else (findSub crlfL (t ++ crlfL ++ x)).map (· + 1)) = some (c :: t).length
    rw [if_neg (by rw [hpre]; decide)]
    rw [ih fun c2 hc2 => ha c2 (List.mem_cons_of_mem _ hc2)]
    simp

theorem tryPull_until_crlf_at {a x : List Char}
    (ha : ∀ c ∈ a, isdigitC c = true) :
    tryPull (a ++ crlfL ++ x) (Pull.untilStr crlfL) = some (a, x) := by
  simp only [tryPull, findSub_crlf_at ha, Option.some.injEq, Prod.mk.injEq]
  constructor
  · rw [List.append_assoc]
    exact List.take_left a (crlfL ++ x)
  · exact List.drop_left' (by simp)

theorem tryPull_bytes_at (a x : List Char) :
    tryPull (a ++ x) (Pull.bytes a.length) = some (a, x) := by
  simp only [tryPull]
  rw [if_pos (by simp)]
  rw [List.take_left, List.drop_left]

theorem chunkWire_decomp (l : List (List Char × List Char)) :
    chunkWire l = sizeLine l ++ crlfL ++ wireRest l := by
  rcases l with _ | ⟨⟨sz, p⟩, t⟩
  · rfl
  · simp [chunkWire, sizeLine, wireRest, List.append_assoc]

theorem sizeLine_digits {l : List (List Char × List Char)} (hg : GoodChunks l) :
    ∀ c ∈ sizeLine l, isdigitC c = true := by
  rcases l with _ | ⟨⟨sz, p⟩, t⟩
  · intro c hc
    simp only [sizeLine, List.mem_singleton] at hc
    subst hc
    decide
  · exact (hg (sz, p) (List.mem_cons_self _ _)).2.1

theorem accCache_append (l : List (List Char × List Char)) : ∀ c : List Char,
    accCache (some c) l = some (c ++ (l.map Prod.snd).flatten) := by
  induction l with
  | nil => intro c; simp [accCache]
  | cons pr t ih =>
    intro c
    rcases pr with ⟨sz, p⟩
    show accCache (some (c ++ p)) t = _
    rw [ih]
    simp [List.append_assoc]

theorem cacheBody_eq (c : Option (List Char)) :
    cacheBody c = (c, (c.getD []).length) := by
  cases c <;> simp [cacheBody]

/-- Core of C7: from the ReadingChunkSize round, a well-formed chunk stream
(arbitrarily many chunks, arbitrary payloads) runs to ReadComplete with all
payloads accumulated into the chunk cache and a single
`on_request_end(cache.data, cache.length)` at the end — no `on_body_chunk`
handler being registered. -/
theorem on_data_chunks (env : Env) (henv : env.hasOnBodyChunk = false) :
    ∀ (l : List (List Char × List Char)) (fuel : Nat) (s : S),
    GoodChunks l →
    s.state = stCS → s.pending = none → s.unread = wireRest l →
    s.unread.length + 2 ≤ fuel →
    on_data env fuel s (sizeLine l) =
      ({ s with state := stRC, unread := [], pending := none,
                chunk_body_cache := accCache s.chunk_body_cache l,
                post_data := (cacheBody (accCache s.chunk_body_cache l)).1,
                post_size := (cacheBody (accCache s.chunk_body_cache l)).2 },
       [Ev.onRequestEnd (cacheBody (accCache s.chunk_body_cache l)).1
          (cacheBody (accCache s.chunk_body_cache l)).2]) := by
  intro l
  induction l with
  | nil =>
    intro fuel s _ hst hp hu hfuel
    simp only [wireRest] at hu
    obtain ⟨f, rfl⟩ : ∃ f, fuel = f + 2 := ⟨fuel - 2, by omega⟩
    have h1 : s.state &&& stRH = 0 := by rw [hst]; decide
    have h2 : s.state &&& stWB = 0 := by rw [hst]; decide
    have h3 : s.state &&& stCS ≠ 0 := by rw [hst]; decide
    have hcs : chunk_size_of_view (sizeLine []) = some 0 := by decide
    have htp : tryPull s.unread (Pull.untilStr crlfL) = some ([], []) := by
      rw [hu]
      decide
    have e1 := @on_data_step_CS_zero_sync env s (sizeLine []) 0 [] []
      h1 h2 h3 hcs (by omega) htp
    have e2 := @on_data_step_RF_done env
      { s with state := s.state ^^^ (stCS ||| stRF), unread := [], pending := none }
      []
      (by simp only [hst]; decide) (by simp only [hst]; decide)
      (by simp only [hst]; decide) (by simp only [hst]; decide)
      (by simp only [hst]; decide) (by decide)
    show on_data env (f + 1 + 1) s (sizeLine []) = _
    rw [on_data_succ_inr e1, on_data_succ_inl e2]
    have hstate : (s.state ^^^ (stCS ||| stRF)) ^^^ (stRF ||| stRC) = stRC := by
      rw [hst]
      decide
    simp only [hstate, accCache, cacheBody_eq, List.nil_append]
  | cons pr t ih =>
    rcases pr with ⟨sz, p⟩
    intro fuel s hg hst hp hu hfuel
    obtain ⟨hsznil, hszd, hcs, hp0⟩ := hg (sz, p) (List.mem_cons_self _ _)
    have hgt : GoodChunks t := fun pr2 h2 => hg pr2 (List.mem_cons_of_mem _ h2)
    simp only [wireRest] at hu
    rw [hu] at hfuel
    obtain ⟨f, rfl⟩ : ∃ f, fuel = f + 2 := ⟨fuel - 2, by omega⟩
    have h1 : s.state &&& stRH = 0 := by rw [hst]; decide
    have h2 : s.state &&& stWB = 0 := by rw [hst]; decide
    have h3 : s.state &&& stCS ≠ 0 := by rw [hst]; decide
    have htp1 : tryPull s.unread (Pull.bytes (p.length + 2)) =
        some (p ++ crlfL, chunkWire t) := by
      rw [hu]
      have hlen : p.length + 2 = (p ++ crlfL).length := by simp [crlfL]
      rw [hlen]
      exact tryPull_bytes_at (p ++ crlfL) (chunkWire t)
    have e1 := @on_data_step_CS_pos_sync env s sz p.length (p ++ crlfL)
      (chunkWire t) h1 h2 h3 hcs hp0 htp1
    have htp2 : tryPull (chunkWire t) (Pull.untilStr crlfL) =
        some (sizeLine t, wireRest t) := by
      rw [chunkWire_decomp]
      exact tryPull_until_crlf_at (sizeLine_digits hgt)
    have e2 := @on_data_step_CD_cache_sync env
      { s with state := s.state ^^^ (stCS ||| stCD), unread := chunkWire t,
               pending := none }
      (p ++ crlfL) (sizeLine t) (wireRest t)
      (by simp only [hst]; decide) (by simp only [hst]; decide)
      (by simp only [hst]; decide) (by simp only [hst]; decide)
      henv htp2
    have hchunk : (p ++ crlfL).take ((p ++ crlfL).length - 2) = p := by
      have h2l : (p ++ crlfL).length - 2 = p.length := by simp [crlfL]
      rw [h2l, List.take_left]
    rw [hchunk] at e2
    have e2' : on_data_step env
        { s with state := s.state ^^^ (stCS ||| stCD), unread := chunkWire t,
                 pending := none } (p ++ crlfL) =
        Sum.inr ({ s with state := stCS,
                          chunk_body_cache := some (s.chunk_body_cache.getD [] ++ p),
                          unread := wireRest t, pending := none },
          sizeLine t, []) := by
      rw [e2]
      have hstate2 : (s.state ^^^ (stCS ||| stCD)) ^^^ (stCD ||| stCS) = stCS := by
        rw [hst]
        decide
      simp only [hstate2]
    have hlens := congrArg List.length (chunkWire_decomp t)
    simp only [List.length_append, crlfL, List.length_cons, List.length_nil] at hlens
    have hfuel2 : (wireRest t).length + 2 ≤ f := by
      simp only [List.length_append, crlfL, List.length_cons, List.length_nil] at hfuel
      omega
    have hih := ih f
      { s with state := stCS,
               chunk_body_cache := some (s.chunk_body_cache.getD [] ++ p),
               unread := wireRest t, pending := none }
      hgt rfl rfl rfl hfuel2
    show on_data env (f + 1 + 1) s (sizeLine ((sz, p) :: t)) = _
    rw [show sizeLine ((sz, p) :: t) = sz from rfl]
    rw [on_data_succ_inr e1, on_data_succ_inr e2', hih]
    simp only [accCache, cacheBody_eq, List.nil_append]

/-- C7: the chunk-accumulation fallback, universally over chunked requests.
With no `on_body_chunk` handler registered, for any header part `R0` that
leaves the parser awaiting its first chunk-size line with an empty chunk
cache and an empty unread buffer, and any list of chunks — arbitrary
non-empty payloads, with size lines the (decimal, see C2) size conversion
reads as the payload lengths — terminated by the zero-size chunk and an
empty trailer line, `on_request_end` fires exactly once with a body view
equal to the concatenation of all chunk payloads (their trailing CRLFs
stripped) and its length, and the parser reaches ReadComplete. -/
theorem c7_chunk_accumulation (env : Env) (base : S) (R0 : List Char)
    (l : List (List Char × List Char))
    (henv : env.hasOnBodyChunk = false)
    (hgood : GoodChunks l) (hl : l ≠ [])
    (hst : (stla_http_parse env (stla_http_init base) R0).1.state = stCS)
    (hpend : (stla_http_parse env (stla_http_init base) R0).1.pending =
      some (Pull.untilStr crlfL))
    (hun : (stla_http_parse env (stla_http_init base) R0).1.unread = [])
    (hcache : (stla_http_parse env (stla_http_init base) R0).1.chunk_body_cache =
      none) :
    (stla_http_parse env (stla_http_parse env (stla_http_init base) R0).1
        (chunkWire l)).2 =
      [Ev.onRequestEnd (some ((l.map Prod.snd).flatten))
        ((l.map Prod.snd).flatten).length] ∧
    (stla_http_parse env (stla_http_parse env (stla_http_init base) R0).1
        (chunkWire l)).1.state = stRC := by
  set s0 := (stla_http_parse env (stla_http_init base) R0).1 with hs0
  have hrc : ¬ s0.state &&& stRC ≠ 0 := by rw [hst]; decide
  have htp0 : tryPull (s0.unread ++ chunkWire l) (Pull.untilStr crlfL) =
      some (sizeLine l, wireRest l) := by
    rw [hun, List.nil_append, chunkWire_decomp]
    exact tryPull_until_crlf_at (sizeLine_digits hgood)
  have hpump : stla_http_parse env s0 (chunkWire l) =
      pump env { s0 with unread := s0.unread ++ chunkWire l } := by
    simp only [stla_http_parse, if_neg hrc]
  have hdeliver : pump env { s0 with unread := s0.unread ++ chunkWire l } =
      on_data env ((s0.unread ++ chunkWire l).length + 1)
        { s0 with unread := wireRest l, pending := none } (sizeLine l) := by
    simp only [pump, hpend, htp0]
  have hfuel : ({ s0 with unread := wireRest l,
                          pending := none } : S).unread.length + 2 ≤
      (s0.unread ++ chunkWire l).length + 1 := by
    have hlens := congrArg List.length (chunkWire_decomp l)
    simp only [List.length_append, crlfL, List.length_cons, List.length_nil] at hlens
    have hszl : 1 ≤ (sizeLine l).length := by
      rcases l with _ | ⟨⟨sz, p⟩, t⟩
      · decide
      · have := (hgood (sz, p) (List.mem_cons_self _ _)).1
        show 1 ≤ sz.length
        cases sz with
        | nil => exact absurd rfl this
        | cons c r => simp
    rw [hun]
    simp only [List.nil_append]
    show (wireRest l).length + 2 ≤ (chunkWire l).length + 1
    omega
  have hrun := on_data_chunks env henv l ((s0.unread ++ chunkWire l).length + 1)
    { s0 with unread := wireRest l, pending := none }
    hgood hst rfl rfl hfuel
  have hacc : accCache ({ s0 with unread := wireRest l,
                                  pending := none } : S).chunk_body_cache l =
      some ((l.map Prod.snd).flatten) := by
    have hc2 : ({ s0 with unread := wireRest l,
                          pending := none } : S).chunk_body_cache = none := hcache
    rw [hc2]
    rcases l with _ | ⟨⟨sz, p⟩, t⟩
    · exact absurd rfl hl
    · show accCache (some ([] ++ p)) t = _
      rw [accCache_append]
      simp
  constructor
  · rw [hpump, hdeliver, hrun]
    simp [hacc, cacheBody]
  · rw [hpump, hdeliver, hrun]

theorem c7_witness :
    (envNoChunkCb.hasOnBodyChunk = false) ∧
    GoodChunks [("5".toList, "hello".toList), ("6".toList, " world".toList)] ∧
    reqChunkedHdr ++
      chunkWire [("5".toList, "hello".toList), ("6".toList, " world".toList)] =
      reqChunked ∧
    ((stla_http_parse envNoChunkCb
        (stla_http_parse envNoChunkCb (stla_http_init baseZero) reqChunkedHdr).1
        (chunkWire [("5".toList, "hello".toList), ("6".toList, " world".toList)])).2 =
      [Ev.onRequestEnd
        (some (([("5".toList, "hello".toList),
          ("6".toList, " world".toList)].map Prod.snd).flatten))
        (([("5".toList, "hello".toList),
          ("6".toList, " world".toList)].map Prod.snd).flatten).length] ∧
     (stla_http_parse envNoChunkCb
        (stla_http_parse envNoChunkCb (stla_http_init baseZero) reqChunkedHdr).1
        (chunkWire [("5".toList, "hello".toList),
          ("6".toList, " world".toList)])).1.state = stRC) ∧
    (([("5".toList, "hello".toList),
        ("6".toList, " world".toList)].map Prod.snd).flatten =
      "hello world".toList) :=
  ⟨rfl, by decide, by decide,
   c7_chunk_accumulation envNoChunkCb baseZero reqChunkedHdr
     [("5".toList, "hello".toList), ("6".toList, " world".toList)]
     rfl (by decide) (by decide) (by decide) (by decide) (by decide) (by decide),
   by decide⟩

end StlaHttp
